import Mathlib

/-!
Verification of the custom-nestjs-automapper mapping engine
(`src/core/mapper.ts`, second revision of the file, plus
`src/utils/naming-convention.util.ts` and `src/utils/deep-clone.util.ts`)
against its natural-language specification.

The embedding models JavaScript runtime values shallowly: objects are
association lists of string-keyed fields carrying an allocation identity
`oid` and the identity `cid` and name of their constructor; exceptions are
modelled with `Except Err`; the mapper's mutable state (the allocation
counter standing for object identity creation, and the identity-keyed
per-source-instance cache) is passed explicitly.  Recursion through
`this.map` in the compiled closures is bounded by explicit fuel.
-/

namespace AutoMapper

/-- Errors thrown by JavaScript code in the model: `raw` is an arbitrary
user-level exception, `typeError` a runtime TypeError, and `mappingError`
the error object built by `Mapper.createMappingError` (message parts kept
structurally: source type name, destination type name, message, and the
`originalError` cause). -/
inductive Err where
  | raw (msg : String)
  | typeError (msg : String)
  | mappingError (sourceType : String) (destinationType : String)
      (msg : String) (cause : Option Err)
deriving Repr

/-- JavaScript runtime values.  An object carries its allocation identity
`oid`, the identity `cid` and the `name` of its constructor, and its own
enumerable fields in insertion order. -/
inductive Value where
  | vnull
  | vundefined
  | num (n : Int)
  | str (s : String)
  | bool (b : Bool)
  | obj (oid : Nat) (cid : Nat) (cname : String) (fields : List (String × Value))
  | arr (elems : List Value)
deriving Repr

/-- Tests `v === null`. -/
def isNull : Value → Bool
  | .vnull => true
  | _ => false

/-- Tests `v === undefined`. -/
def isUndefined : Value → Bool
  | .vundefined => true
  | _ => false

/-- JavaScript truthiness. -/
def jsTruthy : Value → Bool
  | .vnull => false
  | .vundefined => false
  | .num n => !(n == 0)
  | .str s => !(s == "")
  | .bool b => b
  | .obj _ _ _ _ => true
  | .arr _ => true

/-- Lookup in an association list (models `Map.get` and object key reads;
keys are unique because updates replace in place). -/
def getAssoc {κ α : Type} [DecidableEq κ] : List (κ × α) → κ → Option α
  | [], _ => none
  | (k, v) :: rest, key => if k = key then some v else getAssoc rest key

/-- Update in an association list (models `Map.set` and JavaScript property
assignment: overwrite in place, or append a new key). -/
def setAssoc {κ α : Type} [DecidableEq κ] : List (κ × α) → κ → α → List (κ × α)
  | [], key, v => [(key, v)]
  | (k, v') :: rest, key, v =>
      if k = key then (k, v) :: rest else (k, v') :: setAssoc rest key v

/-- Own enumerable fields of a value (`for (const k in x)` iterates these). -/
def fieldsOf : Value → List (String × Value)
  | .obj _ _ _ fs => fs
  | _ => []

/-- Enumerable key list of a value, in insertion order. -/
def keysOf (v : Value) : List String := (fieldsOf v).map Prod.fst

/-- Allocation identity of a value (0 for non-objects). -/
def oidOf : Value → Nat
  | .obj oid _ _ _ => oid
  | _ => 0

/-- Constructor identity of a value (0 for non-objects). -/
def cidOf : Value → Nat
  | .obj _ cid _ _ => cid
  | _ => 0

/-- Constructor name of a value (empty for non-objects). -/
def ctorNameOf : Value → String
  | .obj _ _ cname _ => cname
  | _ => ""

/-- Property read that never throws: an absent key yields `undefined`, as
does a read on anything that is not an object (primitive property reads are
not modelled further). -/
def readField (v : Value) (k : String) : Value :=
  match v with
  | .obj _ _ _ fs => (getAssoc fs k).getD .vundefined
  | _ => .vundefined

/-- Property read `v[k]`: throws a TypeError on a null/undefined base,
otherwise behaves like `readField`. -/
def jsGet (v : Value) (k : String) : Except Err Value :=
  match v with
  | .vnull => .error (.typeError "Cannot read properties of null")
  | .vundefined => .error (.typeError "Cannot read properties of undefined")
  | _ => .ok (readField v k)

/-- The `k in v` operator: throws a TypeError when the right operand is not
an object. -/
def jsIn (v : Value) (k : String) : Except Err Bool :=
  match v with
  | .obj _ _ _ fs => .ok (getAssoc fs k).isSome
  | .arr _ => .ok false
  | _ => .error (.typeError "Cannot use in operator")

/-- The optional-chained hop `v?.[p]`: null/undefined yield `undefined`
instead of throwing; other reads behave like `readField`. -/
def optHop (v : Value) (p : String) : Value :=
  match v with
  | .obj _ _ _ fs => (getAssoc fs p).getD .vundefined
  | _ => .vundefined

mutual

/-- The `deepClone` utility (`src/utils/deep-clone.util.ts`): primitives and
null are returned as-is, arrays are cloned element-wise, objects are cloned
key-by-key into a fresh plain object (losing both the original identity and
the original constructor, which the model renders as identity 0 and the
`Object` constructor `cid` 0). -/
def deepClone : Value → Value
  | .obj _ _ _ fs => .obj 0 0 "Object" (deepCloneFields fs)
  | .arr es => .arr (deepCloneElems es)
  | v => v

/-- Clone of an object's field list, in order. -/
def deepCloneFields : List (String × Value) → List (String × Value)
  | [] => []
  | (k, v) :: rest => (k, deepClone v) :: deepCloneFields rest

/-- Clone of an array's elements, in order. -/
def deepCloneElems : List Value → List Value
  | [] => []
  | v :: rest => deepClone v :: deepCloneElems rest

end

/-- The four naming styles of the naming-convention utility. -/
inductive Style where
  | camelCase
  | snake_case
  | pascalCase
  | kebab_case
deriving Repr, DecidableEq

/-- ASCII upper-case letters, the exact class matched by the regex used in
`convertNamingConvention`. -/
def isAZUpper (c : Char) : Bool := 'A' ≤ c && c ≤ 'Z'

/-- Whitespace characters recognised by the splitting regex and by trim. -/
def jsIsSpace (c : Char) : Bool :=
  c = ' ' || c = '\t' || c = '\n' || c = '\r' || c = '\x0b' || c = '\x0c'

/-- Characters the run-splitting regex consumes: whitespace or underscore. -/
def isWsUnderscore (c : Char) : Bool := jsIsSpace c || c = '_'

/-- The replacement `propertyName.replace(slashUpperSlash-global, space-dollar-one)`:
a space is inserted before every ASCII upper-case letter. -/
def insertSpaceBeforeUpper (s : String) : String :=
  String.mk (s.data.foldr (fun c acc => if isAZUpper c then ' ' :: c :: acc else c :: acc) [])

/-- Trim of leading and trailing whitespace (`String.prototype.trim`). -/
def jsTrim (s : String) : String :=
  String.mk (((s.data.dropWhile jsIsSpace).reverse.dropWhile jsIsSpace).reverse)

/-- Splitting on every single occurrence of a separator character
(`"a__b".split(sep)` yields empty segments between adjacent separators,
and the empty string yields one empty segment). -/
def splitCharGo (sep : Char) : List Char → List Char → List (List Char)
  | [], acc => [acc.reverse]
  | c :: rest, acc =>
      if c = sep then acc.reverse :: splitCharGo sep rest []
      else splitCharGo sep rest (c :: acc)

/-- String form of `splitCharGo`, the model of `s.split(sep)` for a
single-character separator. -/
def splitChar (sep : Char) (s : String) : List String :=
  (splitCharGo sep s.data []).map String.mk

/-- Dotted-path resolution used by the compiled closures:
`const parts = sourcePath.split(dot); let val = src; for (const p of parts) val = val?.[p]`. -/
def resolvePath (src : Value) (path : String) : Value :=
  (splitChar '.' path).foldl optHop src

/-- Splitting on maximal runs of separator characters, the model of
splitting on the one-or-more whitespace-or-underscore regex: a leading run
yields an initial empty segment and a trailing run a final one.  The flag
records whether the scanner is inside a separator run (the current word
accumulator is empty whenever it is set). -/
def splitRunsGo (isSep : Char → Bool) : List Char → List Char → Bool → List (List Char)
  | [], acc, _ => [acc.reverse]
  | c :: rest, acc, inRun =>
      if isSep c then
        if inRun then splitRunsGo isSep rest acc inRun
        else acc.reverse :: splitRunsGo isSep rest [] true
      else splitRunsGo isSep rest (c :: acc) false

/-- String form of `splitRunsGo`. -/
def splitRuns (isSep : Char → Bool) (s : String) : List String :=
  (splitRunsGo isSep s.data [] false).map String.mk

/-- ASCII lower-casing of a word (`w.toLowerCase()`). -/
def jsToLower (w : String) : String := String.mk (w.data.map Char.toLower)

/-- Capitalisation `w[0].toUpperCase() + w.slice(1)`: on the empty word,
`w[0]` is `undefined` and calling `toUpperCase` on it throws a TypeError. -/
def capitalize (w : String) : Except Err String :=
  match w.data with
  | [] => .error (.typeError "Cannot read properties of undefined")
  | c :: rest => .ok (String.mk (Char.toUpper c :: rest))

/-- The word list `convertNamingConvention` derives from its input before
lower-casing, per source style. -/
def wordsFor (propertyName : String) (fromStyle : Style) : List String :=
  match fromStyle with
  | .camelCase => splitRuns isWsUnderscore (insertSpaceBeforeUpper propertyName)
  | .pascalCase => splitRuns isWsUnderscore (jsTrim (insertSpaceBeforeUpper propertyName))
  | .snake_case => splitChar '_' propertyName
  | .kebab_case => splitChar '-' propertyName

/-- Joining for the camelCase target: the word at index 0 is kept as-is,
every later word is capitalised (throwing on an empty word). -/
def camelJoin : Nat → List String → Except Err String
  | _, [] => .ok ""
  | i, w :: ws => do
      let piece ← if i = 0 then pure w else capitalize w
      let rest ← camelJoin (i + 1) ws
      pure (piece ++ rest)

/-- Joining for the PascalCase target: every word is capitalised (throwing
on an empty word). -/
def pascalJoin : List String → Except Err String
  | [] => .ok ""
  | w :: ws => do
      let piece ← capitalize w
      let rest ← pascalJoin ws
      pure (piece ++ rest)

/-- Joining with a separator (`words.join(sep)`). -/
def joinSep (sep : String) : List String → String
  | [] => ""
  | [w] => w
  | w :: ws => w ++ sep ++ joinSep sep ws

/-- The naming-convention converter
(`src/utils/naming-convention.util.ts`, `convertNamingConvention`): split
the name into words according to the source style, lower-case every word,
then re-join according to the target style.  The capitalising targets throw
a TypeError when they hit an empty word, so the function is modelled in
`Except Err`. -/
def convertNamingConvention (propertyName : String) (fromStyle toStyle : Style) :
    Except Err String :=
  let words := (wordsFor propertyName fromStyle).map jsToLower
  match toStyle with
  | .camelCase => camelJoin 0 words
  | .pascalCase => pascalJoin words
  | .snake_case => .ok (joinSep "_" words)
  | .kebab_case => .ok (joinSep "-" words)

example : convertNamingConvention "user_name" .snake_case .camelCase = .ok "userName" := by rfl

example : convertNamingConvention "FooBar" .pascalCase .kebab_case = .ok "foo-bar" := by rfl

example : convertNamingConvention "fooBar" .camelCase .snake_case = .ok "foo_bar" := by rfl

example : (convertNamingConvention "" .snake_case .pascalCase).isOk = false := by rfl

example : (convertNamingConvention "a__b" .snake_case .camelCase).isOk = false := by rfl

example : deepClone (.obj 7 3 "A" [("x", .num 3)]) = .obj 0 0 "Object" [("x", .num 3)] := by rfl

/-- A class value (a `ClassType`): its identity `cid` (reference identity of
the constructor function), its `name`, the fields a default-constructed
instance carries, and the annotation metadata the compiled closures query
for it as destination type — the auto-map key set (in `Object.keys` order),
the nested-target-type factory results, the source-path overrides, and the
value transformers.  Nested classes force this to be an inductive rather
than a structure. -/
inductive ClassInfo where
  | mk (cid : Nat) (name : String)
      (defaults : List (String × Value))
      (autoKeys : List String)
      (nestedMeta : List (String × ClassInfo))
      (pathMeta : List (String × String))
      (transformMeta : List (String × (Value → Value → Except Err Value)))

/-- Constructor identity of a class. -/
def ClassInfo.cid : ClassInfo → Nat
  | .mk c _ _ _ _ _ _ => c

/-- Name of a class (`C.name`). -/
def ClassInfo.name : ClassInfo → String
  | .mk _ n _ _ _ _ _ => n

/-- Fields of a default-constructed instance (`new C()`). -/
def ClassInfo.defaults : ClassInfo → List (String × Value)
  | .mk _ _ d _ _ _ _ => d

/-- Keys of the auto-map metadata record for the class. -/
def ClassInfo.autoKeys : ClassInfo → List String
  | .mk _ _ _ a _ _ _ => a

/-- Per-field nested-target-type factory annotations (the class the factory
returns). -/
def ClassInfo.nestedMeta : ClassInfo → List (String × ClassInfo)
  | .mk _ _ _ _ nm _ _ => nm

/-- Per-field source-path override annotations. -/
def ClassInfo.pathMeta : ClassInfo → List (String × String)
  | .mk _ _ _ _ _ pm _ => pm

/-- Per-field value-transformer annotations. -/
def ClassInfo.transformMeta : ClassInfo → List (String × (Value → Value → Except Err Value))
  | .mk _ _ _ _ _ _ tm => tm

/-- A default-constructed instance of a class, at a given fresh identity. -/
def newInstance (c : ClassInfo) (oid : Nat) : Value :=
  .obj oid c.cid c.name c.defaults

/-- One entry of the entry's field-function table: the function itself (it
may throw) and the optional `__sourcePath` tag that `mapFrom` attaches to
the functions it builds. -/
structure FieldFn where
  fn : Value → Except Err Value
  sourcePath : Option String

/-- `Mapper.mapFrom(sourcePath)`: builds `(src) => src[sourcePath]` and tags
it with `__sourcePath = sourcePath`. -/
def mapFrom (sourcePath : String) : FieldFn :=
  { fn := fun src => jsGet src sourcePath, sourcePath := some sourcePath }

/-- Cache configuration (`CacheConfig`): only the `enabled` flag is
semantically relevant; `strategy` is carried for shape. -/
structure CacheConfig where
  enabled : Option Bool := none
  strategy : Option String := none

/-- Entry options (`MappingEntryOptions`, with the `convertNaming` transform
option the compiled closure also reads).  Absent optional properties are
`none`; boolean flags are read through `Option.getD false`, matching the
falsy check on an absent property. -/
structure EntryOptions where
  skipNulls : Option Bool := none
  skipUndefined : Option Bool := none
  deepClone : Option Bool := none
  strict : Option Bool := none
  ignore : Option (List String) := none
  includeKeys : Option (List String) := none
  convertNaming : Option (Style × Style) := none
  cache : Option CacheConfig := none
  beforeMap : Option (Value → Except Err Value) := none
  afterMap : Option (Value → Except Err Value) := none
  deepCloneBeforeMap : Option Bool := none

/-- The per-call transform options (`TransformOptions`); the second revision
of the mapper accepts them on `map`/`mapAsync` but never reads them. -/
structure TransformOptions where
  ignore : Option (List String) := none
  includeKeys : Option (List String) := none
  convertNaming : Option (Style × Style) := none

/-- One registry entry (`MappingRegistryEntry`): the source and destination
classes, the optional field-function table, and the merged options
(`createMap` always stores merged options, so they are not optional here). -/
structure Entry where
  source : ClassInfo
  destination : ClassInfo
  config : Option (List (String × FieldFn))
  options : EntryOptions

/-- The mapper's registration-time data: the entry list, the name-keyed
reverse registry, the global options and the global cache configuration.
The compiled-function caches are not modelled separately: compilation is
deterministic from the entry, and the sync compiled function for an entry
found through either lookup path is exactly `compiledMapFn` of that entry
(the reverse registry and the compiled-function map are populated and
cleared together, so a fallback-found entry is recompiled on demand). -/
structure MapperCfg where
  registry : List Entry
  reverseRegistry : List (String × Entry)
  globalOptions : EntryOptions
  cacheConfig : CacheConfig

/-- The mapper's mutable execution state: the allocation counter standing
for creation of fresh object identities, and the per-source-instance cache
(`WeakMap` from source identity to a map from destination-class identity to
the previously computed result). -/
structure MState where
  nextOid : Nat
  instanceCache : List (Nat × List (Nat × Value))

/-- The registry key: `source.name + arrow + destination.name`.  The key is
built from class names, not class identities. -/
def getRegistryKey (source destination : ClassInfo) : String :=
  source.name ++ "->" ++ destination.name

/-- Name-and-identity form of `findEntry`: the name-keyed reverse registry
is consulted first, then a linear scan comparing class identities.  Called
with the runtime constructor of the source object, so only its identity and
name are needed. -/
def findEntryBy (m : MapperCfg) (srcCid : Nat) (srcName : String)
    (dstCid : Nat) (dstName : String) : Option Entry :=
  match getAssoc m.reverseRegistry (srcName ++ "->" ++ dstName) with
  | some e => some e
  | none => m.registry.find? (fun r =>
      r.source.cid == srcCid && r.destination.cid == dstCid)

/-- `findEntry(source, destination)` on two class values. -/
def findEntry (m : MapperCfg) (source destination : ClassInfo) : Option Entry :=
  findEntryBy m source.cid source.name destination.cid destination.name

/-- Per-entry cache gate (`isCacheEnabled`): a per-map `cache.enabled`
override takes precedence when it is defined; otherwise the global cache
configuration decides. -/
def isCacheEnabled (m : MapperCfg) (entry : Entry) : Bool :=
  match entry.options.cache with
  | some cc =>
      match cc.enabled with
      | some b => b
      | none => m.cacheConfig.enabled.getD false
  | none => m.cacheConfig.enabled.getD false

/-- Set-based de-duplication (`Array.from(new Set(xs))`), keeping the first
occurrence of each element. -/
def jsSetDedup (seen : List String) : List String → List String
  | [] => []
  | x :: xs =>
      if x ∈ seen then jsSetDedup seen xs else x :: jsSetDedup (x :: seen) xs

/-- Option merging (`mergeOptions`): field-wise spread of the override over
the base, then union (set-deduplicated concatenation) for `ignore` and
`includeKeys` when either side has one, and a shallow merge for `cache`. -/
def mergeOptions (base override : Option EntryOptions) : EntryOptions :=
  let b := base.getD {}
  let o := override.getD {}
  { skipNulls := (o.skipNulls).orElse (fun _ => b.skipNulls)
    skipUndefined := (o.skipUndefined).orElse (fun _ => b.skipUndefined)
    deepClone := (o.deepClone).orElse (fun _ => b.deepClone)
    strict := (o.strict).orElse (fun _ => b.strict)
    ignore :=
      if b.ignore.isSome || o.ignore.isSome then
        some (jsSetDedup [] ((b.ignore.getD []) ++ (o.ignore.getD [])))
      else none
    includeKeys :=
      if b.includeKeys.isSome || o.includeKeys.isSome then
        some (jsSetDedup [] ((b.includeKeys.getD []) ++ (o.includeKeys.getD [])))
      else none
    convertNaming := (o.convertNaming).orElse (fun _ => b.convertNaming)
    cache :=
      if b.cache.isSome || o.cache.isSome then
        let bc := b.cache.getD {}
        let oc := o.cache.getD {}
        some { enabled := (oc.enabled).orElse (fun _ => bc.enabled)
               strategy := (oc.strategy).orElse (fun _ => bc.strategy) }
      else none
    beforeMap := (o.beforeMap).orElse (fun _ => b.beforeMap)
    afterMap := (o.afterMap).orElse (fun _ => b.afterMap)
    deepCloneBeforeMap := (o.deepCloneBeforeMap).orElse (fun _ => b.deepCloneBeforeMap) }

/-- `createMap(source, destination, config?, options?)`: push the entry (with
options merged over the mapper's global options) and index it in the
name-keyed reverse registry.  The eager sync compilation it performs is
implicit here (see `MapperCfg`). -/
def createMap (m : MapperCfg) (source destination : ClassInfo)
    (config : Option (List (String × FieldFn))) (options : Option EntryOptions) :
    MapperCfg :=
  let entry : Entry :=
    { source := source, destination := destination, config := config
      options := mergeOptions (some m.globalOptions) options }
  { m with
      registry := m.registry ++ [entry]
      reverseRegistry := setAssoc m.reverseRegistry (getRegistryKey source destination) entry }

/-- The derived reverse field-function table of `createReverseMap`: a
forward function tagged with `__sourcePath` contributes, under that source
path, a function reading the forward destination key; any other forward
function contributes, under its own destination key, a function reading
that same key.  Built by object-literal assignment, so a repeated key is
overwritten in place. -/
def reverseConfigOf (config : List (String × FieldFn)) : List (String × FieldFn) :=
  config.foldl
    (fun rc p =>
      match p.2.sourcePath with
      | some sp => setAssoc rc sp { fn := fun src => jsGet src p.1, sourcePath := none }
      | none => setAssoc rc p.1 { fn := fun src => jsGet src p.1, sourcePath := none })
    []

/-- `createReverseMap(source, destination)`: requires a forward entry for
the pair (error otherwise), derives the reverse configuration from its
field-function table, and registers it for the swapped pair, reusing the
forward entry's (already merged) options. -/
def createReverseMap (m : MapperCfg) (source destination : ClassInfo) :
    Except Err MapperCfg :=
  match findEntry m source destination with
  | none => .error (.raw ("No forward mapping found for " ++ source.name ++ " -> " ++ destination.name))
  | some forwardEntry =>
      let reverseConfig :=
        match forwardEntry.config with
        | some cfg => reverseConfigOf cfg
        | none => []
      .ok (createMap m destination source (some reverseConfig) (some forwardEntry.options))

/-- `createMappingError`: builds the error thrown by the mapper, carrying
the source type name, the destination type name, a message, and the
original cause. -/
def mkMappingError (sourceType destinationType msg : String) (cause : Option Err) : Err :=
  .mappingError sourceType destinationType msg cause

/-- Truthiness of `entry.config && entry.config[destKey]` — the table is
present and holds a function under the key. -/
def configHasKey (config : Option (List (String × FieldFn))) (k : String) : Bool :=
  match config with
  | some cfg => (getAssoc cfg k).isSome
  | none => false

/-- The check `dest[destKey] !== undefined` on a field list. -/
def destDefined (dest : List (String × Value)) (k : String) : Bool :=
  match getAssoc dest k with
  | some v => !(isUndefined v)
  | none => false

/-- Applies the optional transformer annotation:
`transformer ? transformer(val, src) : val`. -/
def applyTransformerOpt (t : Option (Value → Value → Except Err Value))
    (val src : Value) : Except Err Value :=
  match t with
  | some f => f val src
  | none => .ok val

/-- One iteration's skip tests of the default-copy loop, on the value just
read from the source. -/
def copySkips (opts : EntryOptions) (k : String) (v : Value) : Bool :=
  (match opts.ignore with
   | some l => l.contains k
   | none => false) ||
  (match opts.includeKeys with
   | some l => !(l.contains k)
   | none => false) ||
  (opts.skipNulls.getD false && isNull v) ||
  (opts.skipUndefined.getD false && isUndefined v)

/-- The default-copy section of the compiled closure (`for (const k in src)`
in `compileMapFunction`): iterate the source's enumerable keys in order,
skip ignored / not-included / suppressed values, rename through the naming
converter when configured (this can throw), and assign onto the destination
only when the (renamed) key already exists there, deep-cloning when
configured. -/
def copyStepGo (opts : EntryOptions) (src : Value) :
    List String → List (String × Value) → Except Err (List (String × Value))
  | [], dest => .ok dest
  | k :: rest, dest =>
      let v := readField src k
      if copySkips opts k v then copyStepGo opts src rest dest
      else
        match (match opts.convertNaming with
               | some (f, t) => convertNamingConvention k f t
               | none => .ok k) with
        | .error e => .error e
        | .ok targetKey =>
            if (getAssoc dest targetKey).isSome then
              copyStepGo opts src rest
                (setAssoc dest targetKey (if opts.deepClone.getD false then deepClone v else v))
            else copyStepGo opts src rest dest

/-- Entry point of the default-copy section. -/
def copyStep (opts : EntryOptions) (src : Value) (dest : List (String × Value)) :
    Except Err (List (String × Value)) :=
  copyStepGo opts src (keysOf src) dest

/-- Suppression applied to a field-function result:
`skipNulls` drops null results, `skipUndefined` drops undefined results. -/
def fnResultSkipped (opts : EntryOptions) (v : Value) : Bool :=
  (opts.skipNulls.getD false && isNull v) || (opts.skipUndefined.getD false && isUndefined v)

/-- The explicit field-function section of the compiled closure: invoke
each configured function on the source; a thrown error propagates when
`strict` is set and is swallowed otherwise; a non-suppressed result is
assigned unconditionally onto the destination. -/
def configStepGo (opts : EntryOptions) (src : Value) :
    List (String × FieldFn) → List (String × Value) → Except Err (List (String × Value))
  | [], dest => .ok dest
  | (destKey, mapperFn) :: rest, dest =>
      match mapperFn.fn src with
      | .ok value =>
          if fnResultSkipped opts value then configStepGo opts src rest dest
          else configStepGo opts src rest (setAssoc dest destKey value)
      | .error e =>
          if opts.strict.getD false then .error e
          else configStepGo opts src rest dest

/-- Entry point of the explicit field-function section (absent table: no-op). -/
def configStep (opts : EntryOptions) (config : Option (List (String × FieldFn)))
    (src : Value) (dest : List (String × Value)) : Except Err (List (String × Value)) :=
  match config with
  | some cfg => configStepGo opts src cfg dest
  | none => .ok dest

/-- Element-wise nested mapping of an array sub-value
(`nestedVal.map(it => this.map(it, nestedType))`): the first thrown error
aborts the whole array. -/
def mapElems (recurse : Value → ClassInfo → MState → (Except Err Value) × MState)
    (ncls : ClassInfo) : List Value → MState → (Except Err (List Value)) × MState
  | [], st => (.ok [], st)
  | v :: vs, st =>
      match recurse v ncls st with
      | (.error e, st') => (.error e, st')
      | (.ok w, st') =>
          match mapElems recurse ncls vs st' with
          | (.error e, st'') => (.error e, st'')
          | (.ok ws, st'') => (.ok (w :: ws), st'')

/-- The annotation-driven section of the compiled closure: for each key of
the destination's auto-map metadata that is not claimed by an explicit
field function and is still undefined on the destination, resolve it — the
source-path override is checked first, then the nested-target-type factory
(recursing through `this.map`, element-wise on arrays, copying null and
undefined through unchanged), then a same-named source field guarded by the
`in` operator; the transformer annotation applies on the source-path and
same-named branches. -/
def decoratorStepGo (dst : ClassInfo) (config : Option (List (String × FieldFn)))
    (recurse : Value → ClassInfo → MState → (Except Err Value) × MState) (src : Value) :
    List String → List (String × Value) → MState →
      (Except Err (List (String × Value))) × MState
  | [], dest, st => (.ok dest, st)
  | destKey :: rest, dest, st =>
      if configHasKey config destKey || destDefined dest destKey then
        decoratorStepGo dst config recurse src rest dest st
      else
        match getAssoc dst.pathMeta destKey with
        | some sourcePath =>
            (match applyTransformerOpt (getAssoc dst.transformMeta destKey)
                (resolvePath src sourcePath) src with
             | .error e => (.error e, st)
             | .ok newVal =>
                 decoratorStepGo dst config recurse src rest (setAssoc dest destKey newVal) st)
        | none =>
            match getAssoc dst.nestedMeta destKey with
            | some nestedType =>
                (match jsGet src destKey with
                 | .error e => (.error e, st)
                 | .ok nestedVal =>
                     if isNull nestedVal || isUndefined nestedVal then
                       decoratorStepGo dst config recurse src rest
                         (setAssoc dest destKey nestedVal) st
                     else
                       match nestedVal with
                       | .arr items =>
                           (match mapElems recurse nestedType items st with
                            | (.error e, st') => (.error e, st')
                            | (.ok ws, st') =>
                                decoratorStepGo dst config recurse src rest
                                  (setAssoc dest destKey (.arr ws)) st')
                       | _ =>
                           (match recurse nestedVal nestedType st with
                            | (.error e, st') => (.error e, st')
                            | (.ok w, st') =>
                                decoratorStepGo dst config recurse src rest
                                  (setAssoc dest destKey w) st'))
            | none =>
                match jsIn src destKey with
                | .error e => (.error e, st)
                | .ok true =>
                    (match applyTransformerOpt (getAssoc dst.transformMeta destKey)
                        (readField src destKey) src with
                     | .error e => (.error e, st)
                     | .ok newVal =>
                         decoratorStepGo dst config recurse src rest
                           (setAssoc dest destKey newVal) st)
                | .ok false => decoratorStepGo dst config recurse src rest dest st

/-- The compiled synchronous closure that `compileMapFunction` builds for an
entry: construct a fresh destination instance (allocating its identity),
run the default-copy section, the explicit field-function section, and the
annotation-driven section in that order, and return the populated instance.
Nested mapping is abstracted by `recurse`, which `map` instantiates with
itself. -/
def compiledMapFn (entry : Entry)
    (recurse : Value → ClassInfo → MState → (Except Err Value) × MState)
    (src : Value) (st : MState) : (Except Err Value) × MState :=
  let oid := st.nextOid
  let st1 : MState := { st with nextOid := st.nextOid + 1 }
  match copyStep entry.options src entry.destination.defaults with
  | .error e => (.error e, st1)
  | .ok d1 =>
      match configStep entry.options entry.config src d1 with
      | .error e => (.error e, st1)
      | .ok d2 =>
          match decoratorStepGo entry.destination entry.config recurse src
              entry.destination.autoKeys d2 st1 with
          | (.error e, st2) => (.error e, st2)
          | (.ok d3, st2) => (.ok (.obj oid entry.destination.cid entry.destination.name d3), st2)

/-- The compiled asynchronous closure (`compileAsyncMapFunction`): its body
is the synchronous closure with every result awaited, which the pure model
renders as the identity, so it coincides with `compiledMapFn`; only the
recursion callback differs (`mapAsync` instead of `map`). -/
def compiledAsyncMapFn := @compiledMapFn

/-- Cache lookup: `instanceCache.get(sourceObj)` then `.get(destClass)`,
with identities standing for the object and constructor references. -/
def cacheLookup (st : MState) (srcOid destCid : Nat) : Option Value :=
  match getAssoc st.instanceCache srcOid with
  | none => none
  | some inner => getAssoc inner destCid

/-- Cache store: create the per-source map when absent, then set the result
under the destination class. -/
def cacheStore (st : MState) (srcOid destCid : Nat) (result : Value) : MState :=
  let inner := (getAssoc st.instanceCache srcOid).getD []
  { st with instanceCache := setAssoc st.instanceCache srcOid (setAssoc inner destCid result) }

/-- The body of `map`'s try block: run `beforeMap` (on a deep clone when
`deepCloneBeforeMap` is set), run the compiled closure, run `afterMap`, and
store the result in the instance cache when caching is active for the
entry.  Any error escapes to the caller (`map` wraps it, `mapAsync` has no
such wrapper for its corresponding sequence). -/
def mapTryBody (recurse : Value → ClassInfo → MState → (Except Err Value) × MState)
    (cacheOn : Bool) (entry : Entry) (src : Value) (destCls : ClassInfo) (st : MState) :
    (Except Err Value) × MState :=
  match (match entry.options.beforeMap with
         | some hook =>
             hook (if entry.options.deepCloneBeforeMap.getD false then deepClone src else src)
         | none => .ok src) with
  | .error e => (.error e, st)
  | .ok preProcessed =>
      match compiledMapFn entry recurse preProcessed st with
      | (.error e, st') => (.error e, st')
      | (.ok result0, st') =>
          match (match entry.options.afterMap with
                 | some hook => hook result0
                 | none => .ok result0) with
          | .error e => (.error e, st')
          | .ok result =>
              (.ok result,
               if cacheOn then cacheStore st' (oidOf src) destCls.cid result else st')

/-- The truthy cache hit of `map`/`mapAsync`: caching must be active, the
per-source map present, and the stored result truthy (a falsy stored value
falls through to recomputation). -/
def cachedHit (m : MapperCfg) (entry : Entry) (st : MState) (src : Value)
    (destCls : ClassInfo) : Option Value :=
  if isCacheEnabled m entry then
    match cacheLookup st (oidOf src) destCls.cid with
    | some c => if jsTruthy c then some c else none
    | none => none
  else none

/-- `map(sourceObj, destinationClass, _options?)`: resolve the entry for the
runtime constructor of the source and the destination class (a missing
entry raises the not-found `MappingError`), serve a truthy cached result
when caching is active, and otherwise run the hook/closure pipeline inside
a try block whose catch wraps any error into a `MappingError` carrying both
type names and the cause.  The per-call transform options are accepted and
ignored by this revision of the mapper.  Nested recursion is bounded by
`fuel`. -/
def map : Nat → MapperCfg → MState → Value → ClassInfo → Option TransformOptions →
    (Except Err Value) × MState
  | 0, _, st, _, _, _ => (.error (.raw "mapping recursion limit"), st)
  | fuel + 1, m, st, src, destCls, _tOpts =>
      match findEntryBy m (cidOf src) (ctorNameOf src) destCls.cid destCls.name with
      | none =>
          (.error (mkMappingError (ctorNameOf src) destCls.name "Mapping not found" none), st)
      | some entry =>
          match cachedHit m entry st src destCls with
          | some c => (.ok c, st)
          | none =>
              match mapTryBody (fun v cls st' => map fuel m st' v cls none)
                  (isCacheEnabled m entry) entry src destCls st with
              | (.error e, st') =>
                  (.error (mkMappingError (ctorNameOf src) destCls.name "Mapping failed" (some e)),
                   st')
              | ok => ok

/-- `mapAsync(sourceObj, destinationClass, _options?)`: same resolution and
cache steps as `map`, but the `beforeMap` hook always receives a deep clone
of the source, the async compiled closure is used, and there is no
try/catch around the pipeline — an error from a hook or from the closure
propagates to the caller as-is. -/
def mapAsync : Nat → MapperCfg → MState → Value → ClassInfo → Option TransformOptions →
    (Except Err Value) × MState
  | 0, _, st, _, _, _ => (.error (.raw "mapping recursion limit"), st)
  | fuel + 1, m, st, src, destCls, _tOpts =>
      match findEntryBy m (cidOf src) (ctorNameOf src) destCls.cid destCls.name with
      | none =>
          (.error (mkMappingError (ctorNameOf src) destCls.name "Mapping not found" none), st)
      | some entry =>
          match cachedHit m entry st src destCls with
          | some c => (.ok c, st)
          | none =>
              match (match entry.options.beforeMap with
                     | some hook => hook (deepClone src)
                     | none => .ok src) with
              | .error e => (.error e, st)
              | .ok preProcessed =>
                  match compiledAsyncMapFn entry (fun v cls st' => mapAsync fuel m st' v cls none)
                      preProcessed st with
                  | (.error e, st') => (.error e, st')
                  | (.ok result0, st') =>
                      match (match entry.options.afterMap with
                             | some hook => hook result0
                             | none => .ok result0) with
                      | .error e => (.error e, st')
                      | .ok result =>
                          (.ok result,
                           if isCacheEnabled m entry then
                             cacheStore st' (oidOf src) destCls.cid result
                           else st')

/-! Helper lemmas about association lists and the closure sections. -/

theorem getAssoc_setAssoc_self {κ α : Type} [DecidableEq κ] (l : List (κ × α)) (k : κ) (v : α) :
    getAssoc (setAssoc l k v) k = some v := by
  induction l with
  | nil => simp [setAssoc, getAssoc]
  | cons p rest ih =>
      obtain ⟨k', v'⟩ := p
      by_cases h : k' = k
      · simp [setAssoc, getAssoc, h]
      · simp [setAssoc, getAssoc, h, ih]

theorem getAssoc_setAssoc_ne {κ α : Type} [DecidableEq κ] (l : List (κ × α)) (k k' : κ) (v : α)
    (h : k' ≠ k) : getAssoc (setAssoc l k' v) k = getAssoc l k := by
  induction l with
  | nil => simp [setAssoc, getAssoc, h]
  | cons p rest ih =>
      obtain ⟨k0, v0⟩ := p
      by_cases h0 : k0 = k'
      · subst h0; simp [setAssoc, getAssoc, h]
      · by_cases h1 : k0 = k
        · subst h1; simp [setAssoc, getAssoc, h0]
        · simp [setAssoc, getAssoc, h0, h1, ih]

theorem configStepGo_ok_of_strictOff (opts : EntryOptions) (src : Value)
    (h : opts.strict.getD false = false) :
    ∀ cfg : List (String × FieldFn), ∀ dest, ∃ d', configStepGo opts src cfg dest = .ok d' := by
  intro cfg
  induction cfg with
  | nil => intro dest; exact ⟨dest, rfl⟩
  | cons p rest ih =>
      intro dest
      obtain ⟨destKey, mapperFn⟩ := p
      cases hfn : mapperFn.fn src with
      | ok value =>
          cases hs : fnResultSkipped opts value
          · simpa [configStepGo, hfn, hs] using ih (setAssoc dest destKey value)
          · simpa [configStepGo, hfn, hs] using ih dest
      | error e => simpa [configStepGo, hfn, h] using ih dest

theorem configStepGo_preserve (opts : EntryOptions) (src : Value) :
    ∀ cfg : List (String × FieldFn), ∀ dest d' k, configStepGo opts src cfg dest = .ok d' →
      k ∉ cfg.map Prod.fst → getAssoc d' k = getAssoc dest k := by
  intro cfg
  induction cfg with
  | nil =>
      intro dest d' k h _
      simp only [configStepGo] at h
      cases h; rfl
  | cons p rest ih =>
      intro dest d' k h hk
      obtain ⟨destKey, mapperFn⟩ := p
      simp only [List.map, List.mem_cons] at hk
      push_neg at hk
      obtain ⟨hk1, hk2⟩ := hk
      cases hfn : mapperFn.fn src with
      | ok value =>
          cases hs : fnResultSkipped opts value
          · simp only [configStepGo, hfn, hs] at h
            have := ih (setAssoc dest destKey value) d' k h hk2
            rwa [getAssoc_setAssoc_ne dest k destKey value (fun he => hk1 he.symm)] at this
          · simp only [configStepGo, hfn, hs] at h
            exact ih dest d' k h hk2
      | error e =>
          cases hstrict : opts.strict.getD false
          · simp only [configStepGo, hfn, hstrict] at h
            exact ih dest d' k h hk2
          · simp only [configStepGo, hfn, hstrict] at h
            cases h

theorem configStepGo_sets (opts : EntryOptions) (src : Value) :
    ∀ cfg : List (String × FieldFn), ∀ dest d' k fn v,
      (cfg.map Prod.fst).Nodup → configStepGo opts src cfg dest = .ok d' →
      (k, fn) ∈ cfg → fn.fn src = .ok v → fnResultSkipped opts v = false →
      getAssoc d' k = some v := by
  intro cfg
  induction cfg with
  | nil => intro dest d' k fn v _ _ hmem; cases hmem
  | cons p rest ih =>
      intro dest d' k fn v hnd h hmem hfn hskip
      obtain ⟨destKey, mapperFn⟩ := p
      simp only [List.map, List.nodup_cons] at hnd
      obtain ⟨hnotin, hnd'⟩ := hnd
      rcases List.mem_cons.mp hmem with heq | htail
      · injection heq with hkey hfneq
        subst hkey
        subst hfneq
        simp only [configStepGo, hfn, hskip] at h
        have hpres := configStepGo_preserve opts src rest (setAssoc dest k v) d' k h hnotin
        rw [hpres, getAssoc_setAssoc_self]
      · have hkne : k ≠ destKey := by
          intro hcontra
          exact hnotin (hcontra ▸ (List.mem_map.mpr ⟨(k, fn), htail, rfl⟩))
        cases hfn0 : mapperFn.fn src with
        | ok value =>
            cases hs : fnResultSkipped opts value
            · simp only [configStepGo, hfn0, hs] at h
              exact ih (setAssoc dest destKey value) d' k fn v hnd' h htail hfn hskip
            · simp only [configStepGo, hfn0, hs] at h
              exact ih dest d' k fn v hnd' h htail hfn hskip
        | error e =>
            cases hstrict : opts.strict.getD false
            · simp only [configStepGo, hfn0, hstrict] at h
              exact ih dest d' k fn v hnd' h htail hfn hskip
            · simp only [configStepGo, hfn0, hstrict] at h
              cases h

theorem configStepGo_keeps_on_error (opts : EntryOptions) (src : Value) :
    ∀ cfg : List (String × FieldFn), ∀ dest d' k fn e,
      (cfg.map Prod.fst).Nodup → configStepGo opts src cfg dest = .ok d' →
      (k, fn) ∈ cfg → fn.fn src = .error e →
      getAssoc d' k = getAssoc dest k := by
  intro cfg
  induction cfg with
  | nil => intro dest d' k fn e _ _ hmem; cases hmem
  | cons p rest ih =>
      intro dest d' k fn e hnd h hmem hfn
      obtain ⟨destKey, mapperFn⟩ := p
      simp only [List.map, List.nodup_cons] at hnd
      obtain ⟨hnotin, hnd'⟩ := hnd
      rcases List.mem_cons.mp hmem with heq | htail
      · injection heq with hkey hfneq
        subst hkey
        subst hfneq
        cases hstrict : opts.strict.getD false
        · simp only [configStepGo, hfn, hstrict] at h
          exact configStepGo_preserve opts src rest dest d' k h hnotin
        · simp only [configStepGo, hfn, hstrict] at h
          cases h
      · have hkne : k ≠ destKey := by
          intro hcontra
          exact hnotin (hcontra ▸ (List.mem_map.mpr ⟨(k, fn), htail, rfl⟩))
        cases hfn0 : mapperFn.fn src with
        | ok value =>
            cases hs : fnResultSkipped opts value
            · simp only [configStepGo, hfn0, hs] at h
              have := ih (setAssoc dest destKey value) d' k fn e hnd' h htail hfn
              rwa [getAssoc_setAssoc_ne dest k destKey value (Ne.symm hkne)] at this
            · simp only [configStepGo, hfn0, hs] at h
              exact ih dest d' k fn e hnd' h htail hfn
        | error e0 =>
            cases hstrict : opts.strict.getD false
            · simp only [configStepGo, hfn0, hstrict] at h
              exact ih dest d' k fn e hnd' h htail hfn
            · simp only [configStepGo, hfn0, hstrict] at h
              cases h

theorem configStepGo_error_of_strictOn (opts : EntryOptions) (src : Value)
    (hstrict : opts.strict.getD false = true) :
    ∀ cfg : List (String × FieldFn), ∀ dest k fn e,
      (k, fn) ∈ cfg → fn.fn src = .error e →
      ∃ e', configStepGo opts src cfg dest = .error e' := by
  intro cfg
  induction cfg with
  | nil => intro dest k fn e hmem; cases hmem
  | cons p rest ih =>
      intro dest k fn e hmem hfn
      obtain ⟨destKey, mapperFn⟩ := p
      rcases List.mem_cons.mp hmem with heq | htail
      · injection heq with hkey hfneq
        subst hkey
        subst hfneq
        exact ⟨e, by simp [configStepGo, hfn, hstrict]⟩
      · cases hfn0 : mapperFn.fn src with
        | ok value =>
            cases hs : fnResultSkipped opts value
            · obtain ⟨e', he'⟩ := ih (setAssoc dest destKey value) k fn e htail hfn
              exact ⟨e', by simp [configStepGo, hfn0, hs, he']⟩
            · obtain ⟨e', he'⟩ := ih dest k fn e htail hfn
              exact ⟨e', by simp [configStepGo, hfn0, hs, he']⟩
        | error e0 => exact ⟨e0, by simp [configStepGo, hfn0, hstrict]⟩

theorem decoratorStepGo_preserve_aux (dst : ClassInfo)
    (config : Option (List (String × FieldFn)))
    (recurse : Value → ClassInfo → MState → (Except Err Value) × MState)
    (src : Value) (k : String) :
    ∀ keys : List String,
      (∀ dk ∈ keys, configHasKey config dk = false → dk ≠ k) →
      ∀ dest st d' st',
        decoratorStepGo dst config recurse src keys dest st = (.ok d', st') →
        getAssoc d' k = getAssoc dest k := by
  intro keys
  induction keys with
  | nil =>
      intro _ dest st d' st' h
      simp only [decoratorStepGo, Prod.mk.injEq] at h
      obtain ⟨h1, _⟩ := h
      injection h1 with h1
      rw [← h1]
  | cons destKey rest ih =>
      intro hsafe dest st d' st' h
      have hsafe' : ∀ dk ∈ rest, configHasKey config dk = false → dk ≠ k :=
        fun dk hdk => hsafe dk (List.mem_cons_of_mem _ hdk)
      cases hg : (configHasKey config destKey || destDefined dest destKey) with
      | true =>
          simp only [decoratorStepGo, hg, if_true] at h
          exact ih hsafe' dest st d' st' h
      | false =>
          have hck : configHasKey config destKey = false := by
            rcases Bool.or_eq_false_iff.mp hg with ⟨h1, _⟩
            exact h1
          have hne : destKey ≠ k := hsafe destKey (List.mem_cons_self _ _) hck
          cases hpath : getAssoc dst.pathMeta destKey with
          | some sourcePath =>
              cases htr : applyTransformerOpt (getAssoc dst.transformMeta destKey)
                  (resolvePath src sourcePath) src with
              | error e => simp [decoratorStepGo, hg, hpath, htr] at h
              | ok newVal =>
                  simp only [decoratorStepGo, hg, Bool.false_eq_true, if_false, hpath, htr] at h
                  have := ih hsafe' (setAssoc dest destKey newVal) st d' st' h
                  rwa [getAssoc_setAssoc_ne dest k destKey newVal hne] at this
          | none =>
              cases hnested : getAssoc dst.nestedMeta destKey with
              | some nestedType =>
                  cases hget : jsGet src destKey with
                  | error e => simp [decoratorStepGo, hg, hpath, hnested, hget] at h
                  | ok nestedVal =>
                      cases hnu : (isNull nestedVal || isUndefined nestedVal) with
                      | true =>
                          simp only [decoratorStepGo, hg, Bool.false_eq_true, if_false, hpath,
                            hnested, hget, hnu, if_true] at h
                          have := ih hsafe' (setAssoc dest destKey nestedVal) st d' st' h
                          rwa [getAssoc_setAssoc_ne dest k destKey nestedVal hne] at this
                      | false =>
                          simp only [decoratorStepGo, hg, Bool.false_eq_true, if_false, hpath,
                            hnested, hget, hnu] at h
                          cases nestedVal with
                          | arr items =>
                              cases hme : mapElems recurse nestedType items st with
                              | mk res st0 =>
                                  cases res with
                                  | error e => simp [hme] at h
                                  | ok ws =>
                                      simp only [hme] at h
                                      have := ih hsafe'
                                        (setAssoc dest destKey (.arr ws)) st0 d' st' h
                                      rwa [getAssoc_setAssoc_ne dest k destKey (.arr ws) hne]
                                        at this
                          | vnull => simp [isNull] at hnu
                          | vundefined => simp [isUndefined] at hnu
                          | num n =>
                              cases hrec : recurse (.num n) nestedType st with
                              | mk res st0 =>
                                  cases res with
                                  | error e => simp [hrec] at h
                                  | ok w =>
                                      simp only [hrec] at h
                                      have := ih hsafe' (setAssoc dest destKey w) st0 d' st' h
                                      rwa [getAssoc_setAssoc_ne dest k destKey w hne] at this
                          | str s =>
                              cases hrec : recurse (.str s) nestedType st with
                              | mk res st0 =>
                                  cases res with
                                  | error e => simp [hrec] at h
                                  | ok w =>
                                      simp only [hrec] at h
                                      have := ih hsafe' (setAssoc dest destKey w) st0 d' st' h
                                      rwa [getAssoc_setAssoc_ne dest k destKey w hne] at this
                          | bool b =>
                              cases hrec : recurse (.bool b) nestedType st with
                              | mk res st0 =>
                                  cases res with
                                  | error e => simp [hrec] at h
                                  | ok w =>
                                      simp only [hrec] at h
                                      have := ih hsafe' (setAssoc dest destKey w) st0 d' st' h
                                      rwa [getAssoc_setAssoc_ne dest k destKey w hne] at this
                          | obj oid cid cname fs =>
                              cases hrec : recurse (.obj oid cid cname fs) nestedType st with
                              | mk res st0 =>
                                  cases res with
                                  | error e => simp [hrec] at h
                                  | ok w =>
                                      simp only [hrec] at h
                                      have := ih hsafe' (setAssoc dest destKey w) st0 d' st' h
                                      rwa [getAssoc_setAssoc_ne dest k destKey w hne] at this
              | none =>
                  cases hin : jsIn src destKey with
                  | error e => simp [decoratorStepGo, hg, hpath, hnested, hin] at h
                  | ok b =>
                      cases b with
                      | true =>
                          cases htr : applyTransformerOpt (getAssoc dst.transformMeta destKey)
                              (readField src destKey) src with
                          | error e => simp [decoratorStepGo, hg, hpath, hnested, hin, htr] at h
                          | ok newVal =>
                              simp only [decoratorStepGo, hg, Bool.false_eq_true, if_false,
                                hpath, hnested, hin, htr] at h
                              have := ih hsafe' (setAssoc dest destKey newVal) st d' st' h
                              rwa [getAssoc_setAssoc_ne dest k destKey newVal hne] at this
                      | false =>
                          simp only [decoratorStepGo, hg, Bool.false_eq_true, if_false,
                            hpath, hnested, hin] at h
                          exact ih hsafe' dest st d' st' h

/-- The annotation-driven section never touches a destination key claimed by
an explicit field function. -/
theorem decoratorStepGo_preserve_configKey (dst : ClassInfo)
    (config : Option (List (String × FieldFn)))
    (recurse : Value → ClassInfo → MState → (Except Err Value) × MState)
    (src : Value) (k : String) (hk : configHasKey config k = true)
    (keys : List String) (dest : List (String × Value)) (st : MState)
    (d' : List (String × Value)) (st' : MState)
    (h : decoratorStepGo dst config recurse src keys dest st = (.ok d', st')) :
    getAssoc d' k = getAssoc dest k := by
  refine decoratorStepGo_preserve_aux dst config recurse src k keys ?_ dest st d' st' h
  intro dk _ hck he
  rw [he, hk] at hck
  cases hck

/-- The annotation-driven section never touches a key outside its key list. -/
theorem decoratorStepGo_preserve_notMem (dst : ClassInfo)
    (config : Option (List (String × FieldFn)))
    (recurse : Value → ClassInfo → MState → (Except Err Value) × MState)
    (src : Value) (k : String)
    (keys : List String) (hk : k ∉ keys) (dest : List (String × Value)) (st : MState)
    (d' : List (String × Value)) (st' : MState)
    (h : decoratorStepGo dst config recurse src keys dest st = (.ok d', st')) :
    getAssoc d' k = getAssoc dest k := by
  refine decoratorStepGo_preserve_aux dst config recurse src k keys ?_ dest st d' st' h
  intro dk hdk _ he
  exact hk (he ▸ hdk)

theorem getAssoc_of_mem_nodup {α : Type} :
    ∀ cfg : List (String × α), ∀ k : String, ∀ x : α,
      (cfg.map Prod.fst).Nodup → (k, x) ∈ cfg → getAssoc cfg k = some x := by
  intro cfg
  induction cfg with
  | nil => intro k x _ hmem; cases hmem
  | cons p rest ih =>
      intro k x hnd hmem
      obtain ⟨k0, x0⟩ := p
      simp only [List.map, List.nodup_cons] at hnd
      obtain ⟨hnotin, hnd'⟩ := hnd
      rcases List.mem_cons.mp hmem with heq | htail
      · injection heq with h1 h2
        subst h1; subst h2
        simp [getAssoc]
      · have hne : k0 ≠ k := by
          intro hcontra
          exact hnotin (hcontra ▸ (List.mem_map.mpr ⟨(k, x), htail, rfl⟩))
        simp only [getAssoc, if_neg hne]
        exact ih k x hnd' htail

theorem copyStepGo_ok_of_noConvert (opts : EntryOptions) (src : Value)
    (h : opts.convertNaming = none) :
    ∀ keys : List String, ∀ dest, ∃ d', copyStepGo opts src keys dest = .ok d' := by
  intro keys
  induction keys with
  | nil => intro dest; exact ⟨dest, rfl⟩
  | cons k rest ih =>
      intro dest
      cases hs : copySkips opts k (readField src k)
      · cases hmem : (getAssoc dest k).isSome
        · simpa [copyStepGo, hs, h, hmem] using ih dest
        · simpa [copyStepGo, hs, h, hmem] using
            ih (setAssoc dest k (if opts.deepClone.getD false then deepClone (readField src k)
              else readField src k))
      · simpa [copyStepGo, hs] using ih dest

theorem copyStepGo_preserve_skipped (opts : EntryOptions) (src : Value) (k : String)
    (hconv : opts.convertNaming = none)
    (hskip : copySkips opts k (readField src k) = true) :
    ∀ keys : List String, ∀ dest d', copyStepGo opts src keys dest = .ok d' →
      getAssoc d' k = getAssoc dest k := by
  intro keys
  induction keys with
  | nil =>
      intro dest d' h
      simp only [copyStepGo] at h
      injection h with h1
      rw [← h1]
  | cons k0 rest ih =>
      intro dest d' h
      by_cases hk0 : k0 = k
      · subst hk0
        simp only [copyStepGo, hskip, if_true] at h
        exact ih dest d' h
      · cases hs : copySkips opts k0 (readField src k0)
        · cases hmem : (getAssoc dest k0).isSome
          · simp only [copyStepGo, hs, Bool.false_eq_true, if_false, hconv, hmem] at h
            exact ih dest d' h
          · simp only [copyStepGo, hs, Bool.false_eq_true, if_false, hconv, hmem, if_true] at h
            have := ih _ d' h
            rwa [getAssoc_setAssoc_ne dest k k0 _ hk0] at this
        · simp only [copyStepGo, hs, if_true] at h
          exact ih dest d' h

theorem compiledMapFn_ok_inv (entry : Entry)
    (recurse : Value → ClassInfo → MState → (Except Err Value) × MState)
    (src : Value) (st : MState) (v : Value) (st' : MState)
    (h : compiledMapFn entry recurse src st = (.ok v, st')) :
    ∃ d1 d2 d3 st2,
      copyStep entry.options src entry.destination.defaults = .ok d1 ∧
      configStep entry.options entry.config src d1 = .ok d2 ∧
      decoratorStepGo entry.destination entry.config recurse src entry.destination.autoKeys d2
        { st with nextOid := st.nextOid + 1 } = (.ok d3, st2) ∧
      v = .obj st.nextOid entry.destination.cid entry.destination.name d3 ∧ st' = st2 := by
  unfold compiledMapFn at h
  cases hcopy : copyStep entry.options src entry.destination.defaults with
  | error e => simp [hcopy] at h
  | ok d1 =>
      simp only [hcopy] at h
      cases hcfg : configStep entry.options entry.config src d1 with
      | error e => simp [hcfg] at h
      | ok d2 =>
          simp only [hcfg] at h
          cases hdec : decoratorStepGo entry.destination entry.config recurse src
              entry.destination.autoKeys d2 { st with nextOid := st.nextOid + 1 } with
          | mk res st2 =>
              cases res with
              | error e => simp [hdec] at h
              | ok d3 =>
                  simp only [hdec, Prod.mk.injEq] at h
                  obtain ⟨h1, h2⟩ := h
                  injection h1 with h1
                  exact ⟨d1, d2, d3, st2, rfl, hcfg, hdec, h1.symm, h2.symm⟩

theorem cacheStore_nextOid (st : MState) (a b : Nat) (r : Value) :
    (cacheStore st a b r).nextOid = st.nextOid := rfl

theorem cacheLookup_cacheStore_self (st : MState) (a b : Nat) (r : Value) :
    cacheLookup (cacheStore st a b r) a b = some r := by
  simp [cacheLookup, cacheStore, getAssoc_setAssoc_self]

theorem mapElems_mono
    (recurse : Value → ClassInfo → MState → (Except Err Value) × MState)
    (hrec : ∀ v c s, s.nextOid ≤ ((recurse v c s).2).nextOid) (ncls : ClassInfo) :
    ∀ items : List Value, ∀ st, st.nextOid ≤ ((mapElems recurse ncls items st).2).nextOid := by
  intro items
  induction items with
  | nil => intro st; simp [mapElems]
  | cons v vs ih =>
      intro st
      cases hr : recurse v ncls st with
      | mk res st' =>
          have h1 : st.nextOid ≤ st'.nextOid := by
            have := hrec v ncls st
            rw [hr] at this
            exact this
          cases res with
          | error e => simp only [mapElems, hr]; exact h1
          | ok w =>
              cases hm : mapElems recurse ncls vs st' with
              | mk res2 st'' =>
                  have h2 : st'.nextOid ≤ st''.nextOid := by
                    have := ih st'
                    rw [hm] at this
                    exact this
                  cases res2 with
                  | error e => simp only [mapElems, hr, hm]; exact le_trans h1 h2
                  | ok ws => simp only [mapElems, hr, hm]; exact le_trans h1 h2

theorem decoratorStepGo_mono (dst : ClassInfo)
    (config : Option (List (String × FieldFn)))
    (recurse : Value → ClassInfo → MState → (Except Err Value) × MState)
    (hrec : ∀ v c s, s.nextOid ≤ ((recurse v c s).2).nextOid) (src : Value) :
    ∀ keys : List String, ∀ dest st,
      st.nextOid ≤ ((decoratorStepGo dst config recurse src keys dest st).2).nextOid := by
  intro keys
  induction keys with
  | nil => intro dest st; simp [decoratorStepGo]
  | cons destKey rest ih =>
      intro dest st
      cases hg : (configHasKey config destKey || destDefined dest destKey) with
      | true => simp only [decoratorStepGo, hg, if_true]; exact ih dest st
      | false =>
          cases hpath : getAssoc dst.pathMeta destKey with
          | some sourcePath =>
              cases htr : applyTransformerOpt (getAssoc dst.transformMeta destKey)
                  (resolvePath src sourcePath) src with
              | error e => simp [decoratorStepGo, hg, hpath, htr]
              | ok newVal =>
                  simp only [decoratorStepGo, hg, Bool.false_eq_true, if_false, hpath, htr]
                  exact ih _ st
          | none =>
              cases hnested : getAssoc dst.nestedMeta destKey with
              | some nestedType =>
                  cases hget : jsGet src destKey with
                  | error e => simp [decoratorStepGo, hg, hpath, hnested, hget]
                  | ok nestedVal =>
                      cases hnu : (isNull nestedVal || isUndefined nestedVal) with
                      | true =>
                          simp only [decoratorStepGo, hg, Bool.false_eq_true, if_false, hpath,
                            hnested, hget, hnu, if_true]
                          exact ih _ st
                      | false =>
                          simp only [decoratorStepGo, hg, Bool.false_eq_true, if_false, hpath,
                            hnested, hget, hnu]
                          cases nestedVal with
                          | arr items =>
                              cases hme : mapElems recurse nestedType items st with
                              | mk res st0 =>
                                  have h1 : st.nextOid ≤ st0.nextOid := by
                                    have := mapElems_mono recurse hrec nestedType items st
                                    rw [hme] at this
                                    exact this
                                  cases res with
                                  | error e => simp only [hme]; exact h1
                                  | ok ws =>
                                      simp only [hme]
                                      exact le_trans h1 (ih _ st0)
                          | vnull => simp [isNull] at hnu
                          | vundefined => simp [isUndefined] at hnu
                          | num n =>
                              cases hr : recurse (.num n) nestedType st with
                              | mk res st0 =>
                                  have h1 : st.nextOid ≤ st0.nextOid := by
                                    have := hrec (.num n) nestedType st
                                    rw [hr] at this
                                    exact this
                                  cases res with
                                  | error e => simp only [hr]; exact h1
                                  | ok w => simp only [hr]; exact le_trans h1 (ih _ st0)
                          | str s =>
                              cases hr : recurse (.str s) nestedType st with
                              | mk res st0 =>
                                  have h1 : st.nextOid ≤ st0.nextOid := by
                                    have := hrec (.str s) nestedType st
                                    rw [hr] at this
                                    exact this
                                  cases res with
                                  | error e => simp only [hr]; exact h1
                                  | ok w => simp only [hr]; exact le_trans h1 (ih _ st0)
                          | bool b =>
                              cases hr : recurse (.bool b) nestedType st with
                              | mk res st0 =>
                                  have h1 : st.nextOid ≤ st0.nextOid := by
                                    have := hrec (.bool b) nestedType st
                                    rw [hr] at this
                                    exact this
                                  cases res with
                                  | error e => simp only [hr]; exact h1
                                  | ok w => simp only [hr]; exact le_trans h1 (ih _ st0)
                          | obj oid cid cname fs =>
                              cases hr : recurse (.obj oid cid cname fs) nestedType st with
                              | mk res st0 =>
                                  have h1 : st.nextOid ≤ st0.nextOid := by
                                    have := hrec (.obj oid cid cname fs) nestedType st
                                    rw [hr] at this
                                    exact this
                                  cases res with
                                  | error e => simp only [hr]; exact h1
                                  | ok w => simp only [hr]; exact le_trans h1 (ih _ st0)
              | none =>
                  cases hin : jsIn src destKey with
                  | error e => simp [decoratorStepGo, hg, hpath, hnested, hin]
                  | ok b =>
                      cases b with
                      | true =>
                          cases htr : applyTransformerOpt (getAssoc dst.transformMeta destKey)
                              (readField src destKey) src with
                          | error e => simp [decoratorStepGo, hg, hpath, hnested, hin, htr]
                          | ok newVal =>
                              simp only [decoratorStepGo, hg, Bool.false_eq_true, if_false,
                                hpath, hnested, hin, htr]
                              exact ih _ st
                      | false =>
                          simp only [decoratorStepGo, hg, Bool.false_eq_true, if_false,
                            hpath, hnested, hin]
                          exact ih dest st

theorem compiledMapFn_mono (entry : Entry)
    (recurse : Value → ClassInfo → MState → (Except Err Value) × MState)
    (hrec : ∀ v c s, s.nextOid ≤ ((recurse v c s).2).nextOid) (src : Value) (st : MState) :
    st.nextOid + 1 ≤ ((compiledMapFn entry recurse src st).2).nextOid := by
  unfold compiledMapFn
  cases hcopy : copyStep entry.options src entry.destination.defaults with
  | error e => simp [hcopy]
  | ok d1 =>
      simp only [hcopy]
      cases hcfg : configStep entry.options entry.config src d1 with
      | error e => simp [hcfg]
      | ok d2 =>
          simp only [hcfg]
          cases hdec : decoratorStepGo entry.destination entry.config recurse src
              entry.destination.autoKeys d2 { st with nextOid := st.nextOid + 1 } with
          | mk res st2 =>
              have h1 : st.nextOid + 1 ≤ st2.nextOid := by
                have := decoratorStepGo_mono entry.destination entry.config recurse hrec src
                  entry.destination.autoKeys d2 { st with nextOid := st.nextOid + 1 }
                rw [hdec] at this
                exact this
              cases res with
              | error e => simp only [hdec]; exact h1
              | ok d3 => simp only [hdec]; exact h1

theorem mapTryBody_mono
    (recurse : Value → ClassInfo → MState → (Except Err Value) × MState)
    (hrec : ∀ v c s, s.nextOid ≤ ((recurse v c s).2).nextOid)
    (cacheOn : Bool) (entry : Entry) (src : Value) (destCls : ClassInfo) (st : MState) :
    st.nextOid ≤ ((mapTryBody recurse cacheOn entry src destCls st).2).nextOid := by
  unfold mapTryBody
  cases hpre : (match entry.options.beforeMap with
                | some hook =>
                    hook (if entry.options.deepCloneBeforeMap.getD false then deepClone src
                      else src)
                | none => .ok src) with
  | error e => simp [hpre]
  | ok preProcessed =>
      simp only [hpre]
      cases hc : compiledMapFn entry recurse preProcessed st with
      | mk res st' =>
          have h1 : st.nextOid ≤ st'.nextOid := by
            have := compiledMapFn_mono entry recurse hrec preProcessed st
            rw [hc] at this
            exact Nat.le_of_succ_le this
          cases res with
          | error e => simp only [hc]; exact h1
          | ok result0 =>
              cases hafter : (match entry.options.afterMap with
                             | some hook => hook result0
                             | none => .ok result0) with
              | error e => simp only [hc, hafter]; exact h1
              | ok result =>
                  simp only [hc, hafter]
                  cases cacheOn with
                  | true => simpa [cacheStore_nextOid] using h1
                  | false => simpa using h1

theorem map_mono :
    ∀ fuel : Nat, ∀ m st src destCls o,
      st.nextOid ≤ ((map fuel m st src destCls o).2).nextOid := by
  intro fuel
  induction fuel with
  | zero => intro m st src destCls o; simp [map]
  | succ fuel ih =>
      intro m st src destCls o
      simp only [map]
      cases hfind : findEntryBy m (cidOf src) (ctorNameOf src) destCls.cid destCls.name with
      | none => simp
      | some entry =>
          simp only
          cases hhit : cachedHit m entry st src destCls with
          | some c => simp
          | none =>
              simp only
              cases hbody : mapTryBody (fun v cls st' => map fuel m st' v cls none)
                  (isCacheEnabled m entry) entry src destCls st with
              | mk res st' =>
                  have h1 : st.nextOid ≤ st'.nextOid := by
                    have := mapTryBody_mono (fun v cls st' => map fuel m st' v cls none)
                      (fun v c s => ih m s v c none) (isCacheEnabled m entry) entry src destCls st
                    rw [hbody] at this
                    exact this
                  cases res with
                  | error e => simp only [hbody]; exact h1
                  | ok v => simp only [hbody]; exact h1

theorem map_ok_inv (fuel : Nat) (m : MapperCfg) (st : MState) (src : Value)
    (destCls : ClassInfo) (o : Option TransformOptions) (r : Value) (st1 : MState)
    (h : map (fuel + 1) m st src destCls o = (.ok r, st1)) :
    ∃ entry, findEntryBy m (cidOf src) (ctorNameOf src) destCls.cid destCls.name = some entry ∧
      ((cachedHit m entry st src destCls = some r ∧ st1 = st) ∨
       (cachedHit m entry st src destCls = none ∧
        mapTryBody (fun v cls st' => map fuel m st' v cls none)
          (isCacheEnabled m entry) entry src destCls st = (.ok r, st1))) := by
  simp only [map] at h
  cases hfind : findEntryBy m (cidOf src) (ctorNameOf src) destCls.cid destCls.name with
  | none => simp [hfind] at h
  | some entry =>
      simp only [hfind] at h
      cases hhit : cachedHit m entry st src destCls with
      | some c =>
          simp only [hhit, Prod.mk.injEq] at h
          obtain ⟨h1, h2⟩ := h
          injection h1 with h1
          exact ⟨entry, rfl, .inl ⟨by rw [hhit, h1], h2.symm⟩⟩
      | none =>
          simp only [hhit] at h
          cases hbody : mapTryBody (fun v cls st' => map fuel m st' v cls none)
              (isCacheEnabled m entry) entry src destCls st with
          | mk res st' =>
              cases res with
              | error e => simp [hbody] at h
              | ok v =>
                  simp only [hbody, Prod.mk.injEq] at h
                  obtain ⟨h1, h2⟩ := h
                  injection h1 with h1
                  exact ⟨entry, rfl, .inr ⟨hhit, by rw [hbody, h1, h2]⟩⟩

theorem mapTryBody_ok_inv_noAfter
    (recurse : Value → ClassInfo → MState → (Except Err Value) × MState)
    (cacheOn : Bool) (entry : Entry) (src : Value) (destCls : ClassInfo) (st : MState)
    (r : Value) (stOut : MState)
    (hafter : entry.options.afterMap = none)
    (h : mapTryBody recurse cacheOn entry src destCls st = (.ok r, stOut)) :
    ∃ pre stMid,
      (match entry.options.beforeMap with
       | some hook =>
           hook (if entry.options.deepCloneBeforeMap.getD false then deepClone src else src)
       | none => .ok src) = .ok pre ∧
      compiledMapFn entry recurse pre st = (.ok r, stMid) ∧
      stOut = (if cacheOn then cacheStore stMid (oidOf src) destCls.cid r else stMid) := by
  unfold mapTryBody at h
  cases hpre : (match entry.options.beforeMap with
                | some hook =>
                    hook (if entry.options.deepCloneBeforeMap.getD false then deepClone src
                      else src)
                | none => .ok src) with
  | error e => simp [hpre] at h
  | ok pre =>
      simp only [hpre] at h
      cases hc : compiledMapFn entry recurse pre st with
      | mk res stMid =>
          cases res with
          | error e => simp [hc] at h
          | ok result0 =>
              simp only [hc, hafter, Prod.mk.injEq] at h
              obtain ⟨h1, h2⟩ := h
              injection h1 with h1
              refine ⟨pre, stMid, rfl, ?_, ?_⟩
              · rw [hc, h1]
              · rw [← h2, h1]

/-! Concrete material shared by the witness theorems. -/

/-- Example source class with no metadata. -/
def exClassA : ClassInfo := .mk 1 "A" [] [] [] [] []

/-- Example destination class with one default-constructed field. -/
def exClassB : ClassInfo := .mk 2 "B" [("x", .str "default")] [] [] [] []

/-- Example recursion callback that rejects nested mapping. -/
def exRecurse : Value → ClassInfo → MState → (Except Err Value) × MState :=
  fun _ _ s => (.error (.raw "no nested mapping"), s)

/-- Fresh mapper execution state. -/
def exSt : MState := ⟨0, []⟩

/-- Field function returning a fixed value. -/
def exFnOk : FieldFn := { fn := fun _ => .ok (.str "FN"), sourcePath := none }

/-- Field function that always throws. -/
def exFnBad : FieldFn := { fn := fun _ => .error (.raw "boom"), sourcePath := none }

/-- Entry mapping `exClassA` to `exClassB` with one explicit field function
on the same-named field `x`. -/
def exEntryC1 : Entry :=
  { source := exClassA, destination := exClassB
    config := some [("x", exFnOk)], options := {} }

/-- Source instance whose enumerable field `x` would also be default-copied. -/
def exSrcX : Value := .obj 5 1 "A" [("x", .str "SRC")]

/-!
Claim theorems.
-/

/-- C1: for a registered entry, whenever a destination key is claimed by an
explicit field function whose application succeeds with a value not
suppressed by `skipNulls`/`skipUndefined`, the destination returned by the
compiled closure holds exactly that value at the key — the field-function
step overwrites whatever the default-copy step wrote there, and the
annotation-driven step leaves keys claimed by field functions alone. -/
theorem C1_explicit_field_function_overwrites_default_copy
    (entry : Entry)
    (recurse : Value → ClassInfo → MState → (Except Err Value) × MState)
    (src : Value) (st : MState)
    (cfg : List (String × FieldFn)) (k : String) (fn : FieldFn) (v : Value)
    (out : Value) (st' : MState)
    (hcfg : entry.config = some cfg)
    (hnd : (cfg.map Prod.fst).Nodup)
    (hmem : (k, fn) ∈ cfg)
    (hfn : fn.fn src = .ok v)
    (hskip : fnResultSkipped entry.options v = false)
    (hrun : compiledMapFn entry recurse src st = (.ok out, st')) :
    getAssoc (fieldsOf out) k = some v := by
  obtain ⟨d1, d2, d3, st2, hcopy, hcfgStep, hdec, hout, hst⟩ :=
    compiledMapFn_ok_inv entry recurse src st out st' hrun
  have hk : configHasKey entry.config k = true := by
    simp [configHasKey, hcfg, getAssoc_of_mem_nodup cfg k fn hnd hmem]
  have hd2 : getAssoc d2 k = some v := by
    rw [hcfg] at hcfgStep
    simp only [configStep] at hcfgStep
    exact configStepGo_sets entry.options src cfg d1 d2 k fn v hnd hcfgStep hmem hfn hskip
  have hd3 := decoratorStepGo_preserve_configKey entry.destination entry.config recurse src k hk
    entry.destination.autoKeys d2 _ d3 st2 hdec
  rw [hout]
  simp only [fieldsOf]
  rw [hd3, hd2]

/-- Witness for C1: the concrete field function's value `FN` wins over the
default-copied source value `SRC` on field `x`. -/
theorem C1_explicit_field_function_overwrites_default_copy_witness :
    exFnOk.fn exSrcX = .ok (.str "FN") ∧
    getAssoc (fieldsOf (Value.obj 0 2 "B" [("x", .str "FN")])) "x" = some (.str "FN") :=
  ⟨rfl,
    C1_explicit_field_function_overwrites_default_copy exEntryC1 exRecurse exSrcX exSt
      [("x", exFnOk)] "x" exFnOk (.str "FN") (.obj 0 2 "B" [("x", .str "FN")]) ⟨1, []⟩
      rfl (by simp) (by simp) rfl rfl (by rfl)⟩

/-- C5: when an explicit field function throws, the behaviour depends on
`strict`: without it the error is swallowed, the destination keeps exactly
the value the default-copy step produced for the key, and every other field
function still takes effect; with `strict` set the compiled closure fails
with an error. -/
theorem C5_field_function_error_policy
    (entry : Entry)
    (recurse : Value → ClassInfo → MState → (Except Err Value) × MState)
    (src : Value) (st : MState)
    (cfg : List (String × FieldFn)) (k : String) (fn : FieldFn) (e : Err)
    (d1 : List (String × Value))
    (hcfg : entry.config = some cfg)
    (hnd : (cfg.map Prod.fst).Nodup)
    (hmem : (k, fn) ∈ cfg)
    (hfn : fn.fn src = .error e)
    (hcopy : copyStep entry.options src entry.destination.defaults = .ok d1) :
    (entry.options.strict.getD false = false →
      ∀ out st', compiledMapFn entry recurse src st = (.ok out, st') →
        getAssoc (fieldsOf out) k = getAssoc d1 k ∧
        (∀ k' fn' v', (k', fn') ∈ cfg → fn'.fn src = .ok v' →
          fnResultSkipped entry.options v' = false →
          getAssoc (fieldsOf out) k' = some v')) ∧
    (entry.options.strict.getD false = true →
      ∃ e' st', compiledMapFn entry recurse src st = (.error e', st')) := by
  constructor
  · intro hstrict out st' hrun
    obtain ⟨d1', d2, d3, st2, hcopy', hcfgStep, hdec, hout, hst⟩ :=
      compiledMapFn_ok_inv entry recurse src st out st' hrun
    rw [hcopy] at hcopy'
    injection hcopy' with hd1
    subst hd1
    rw [hcfg] at hcfgStep
    simp only [configStep] at hcfgStep
    constructor
    · have hk : configHasKey entry.config k = true := by
        simp [configHasKey, hcfg, getAssoc_of_mem_nodup cfg k fn hnd hmem]
      have hd3 := decoratorStepGo_preserve_configKey entry.destination entry.config recurse src
        k hk entry.destination.autoKeys d2 _ d3 st2 hdec
      have hd2 := configStepGo_keeps_on_error entry.options src cfg d1 d2 k fn e hnd
        hcfgStep hmem hfn
      rw [hout]
      simp only [fieldsOf]
      rw [hd3, hd2]
    · intro k' fn' v' hmem' hfn' hskip'
      have hk' : configHasKey entry.config k' = true := by
        simp [configHasKey, hcfg, getAssoc_of_mem_nodup cfg k' fn' hnd hmem']
      have hd3 := decoratorStepGo_preserve_configKey entry.destination entry.config recurse src
        k' hk' entry.destination.autoKeys d2 _ d3 st2 hdec
      have hd2 := configStepGo_sets entry.options src cfg d1 d2 k' fn' v' hnd
        hcfgStep hmem' hfn' hskip'
      rw [hout]
      simp only [fieldsOf]
      rw [hd3, hd2]
  · intro hstrict
    obtain ⟨e', he'⟩ :=
      configStepGo_error_of_strictOn entry.options src hstrict cfg d1 k fn e hmem hfn
    refine ⟨e', { st with nextOid := st.nextOid + 1 }, ?_⟩
    unfold compiledMapFn
    simp [hcopy, hcfg, configStep, he']

/-- Entry whose single field function on `x` always throws (non-strict). -/
def exEntryC5 : Entry :=
  { source := exClassA, destination := exClassB
    config := some [("x", exFnBad)], options := {} }

/-- Witness for C5: the throwing field function on `x` is swallowed and the
returned destination keeps the default-copied source value `SRC` at `x`. -/
theorem C5_field_function_error_policy_witness :
    exFnBad.fn exSrcX = .error (.raw "boom") ∧
    getAssoc (fieldsOf (Value.obj 0 2 "B" [("x", .str "SRC")])) "x" =
      getAssoc [("x", Value.str "SRC")] "x" :=
  ⟨rfl,
    ((C5_field_function_error_policy exEntryC5 exRecurse exSrcX exSt
        [("x", exFnBad)] "x" exFnBad (.raw "boom") [("x", .str "SRC")]
        rfl (by simp) (by simp) rfl (by rfl)).1
      rfl (.obj 0 2 "B" [("x", .str "SRC")]) ⟨1, []⟩ (by rfl)).1⟩

/-- C6: with `skipNulls` set, a null-valued enumerable source field is not
assigned by the default-copy step — the destination keeps its
default-constructed value at that key; with `skipUndefined` set the same
holds for an undefined value.  (No naming conversion is configured, so no
other source field can be renamed onto the key.) -/
theorem C6_skip_suppression_preserves_defaults
    (opts : EntryOptions) (src : Value) (defaults : List (String × Value)) (x : String)
    (hconv : opts.convertNaming = none) :
    (opts.skipNulls.getD false = true → readField src x = .vnull →
      ∃ d1, copyStep opts src defaults = .ok d1 ∧ getAssoc d1 x = getAssoc defaults x) ∧
    (opts.skipUndefined.getD false = true → readField src x = .vundefined →
      ∃ d1, copyStep opts src defaults = .ok d1 ∧ getAssoc d1 x = getAssoc defaults x) := by
  constructor
  · intro hsn hval
    have hs : copySkips opts x (readField src x) = true := by
      simp [copySkips, hval, isNull, hsn]
    obtain ⟨d1, hd1⟩ := copyStepGo_ok_of_noConvert opts src hconv (keysOf src) defaults
    exact ⟨d1, hd1, copyStepGo_preserve_skipped opts src x hconv hs (keysOf src) defaults d1 hd1⟩
  · intro hsu hval
    have hs : copySkips opts x (readField src x) = true := by
      simp [copySkips, hval, isUndefined, hsu]
    obtain ⟨d1, hd1⟩ := copyStepGo_ok_of_noConvert opts src hconv (keysOf src) defaults
    exact ⟨d1, hd1, copyStepGo_preserve_skipped opts src x hconv hs (keysOf src) defaults d1 hd1⟩

/-- Options with null suppression enabled. -/
def exOptsSkipNulls : EntryOptions := { skipNulls := some true }

/-- Source instance whose field `x` is null. -/
def exSrcNullX : Value := .obj 6 1 "A" [("x", .vnull), ("y", .num 4)]

/-- Witness for C6: with `skipNulls`, a null source `x` leaves the
destination's default value for `x` in place. -/
theorem C6_skip_suppression_preserves_defaults_witness :
    readField exSrcNullX "x" = .vnull ∧
    ∃ d1, copyStep exOptsSkipNulls exSrcNullX [("x", Value.str "default")] = .ok d1 ∧
      getAssoc d1 "x" = getAssoc [("x", Value.str "default")] "x" :=
  ⟨rfl,
    (C6_skip_suppression_preserves_defaults exOptsSkipNulls exSrcNullX
      [("x", Value.str "default")] "x" rfl).1 rfl rfl⟩

/-- C3: with caching active for the entry and no `afterMap` hook, a first
`map` call that misses the cache computes a result and stores it under the
source object's identity; calling `map` again with the same source identity
returns that identical result reference with the mapper state completely
unchanged (so the compiled closure and its field functions do not run
again); calling `map` with a different object identity that is not in the
cache — however equal its fields are — recomputes and returns a distinct
result reference. -/
theorem C3_cache_is_identity_keyed
    (n : Nat) (m : MapperCfg) (st : MState) (src : Value) (destCls : ClassInfo)
    (o : Option TransformOptions) (entry : Entry) (r : Value) (st1 : MState)
    (hfind : findEntryBy m (cidOf src) (ctorNameOf src) destCls.cid destCls.name = some entry)
    (hcache : isCacheEnabled m entry = true)
    (hafter : entry.options.afterMap = none)
    (hmiss : cacheLookup st (oidOf src) destCls.cid = none)
    (hrun : map (n + 1) m st src destCls o = (.ok r, st1)) :
    (∀ k : Nat, ∀ o2, map (k + 1) m st1 src destCls o2 = (.ok r, st1)) ∧
    (∀ src' : Value, ∀ k : Nat, ∀ o3 r' st3,
        cidOf src' = cidOf src → ctorNameOf src' = ctorNameOf src →
        getAssoc st1.instanceCache (oidOf src') = none →
        map (k + 1) m st1 src' destCls o3 = (.ok r', st3) → r' ≠ r) := by
  obtain ⟨entry0, hfind0, hcase⟩ := map_ok_inv n m st src destCls o r st1 hrun
  rw [hfind] at hfind0
  injection hfind0 with hentry
  subst hentry
  rcases hcase with ⟨hhit, _⟩ | ⟨_, hbody⟩
  · rw [cachedHit, hcache] at hhit
    simp [hmiss] at hhit
  · obtain ⟨pre, stMid, hpre, hcomp, hstOut⟩ :=
      mapTryBody_ok_inv_noAfter _ _ entry src destCls st r st1 hafter hbody
    obtain ⟨d1, d2, d3, st2, _, _, hdec, hout, hstMid⟩ :=
      compiledMapFn_ok_inv entry _ pre st r stMid hcomp
    have hst1 : st1 = cacheStore stMid (oidOf src) destCls.cid r := by
      rw [hcache] at hstOut
      simpa using hstOut
    have hlook1 : cacheLookup st1 (oidOf src) destCls.cid = some r := by
      rw [hst1]
      exact cacheLookup_cacheStore_self stMid (oidOf src) destCls.cid r
    have htruthy : jsTruthy r = true := by rw [hout]; rfl
    have hhit1 : cachedHit m entry st1 src destCls = some r := by
      rw [cachedHit, hcache]
      simp [hlook1, htruthy]
    have hmono : st.nextOid + 1 ≤ stMid.nextOid := by
      have := compiledMapFn_mono entry (fun v cls st' => map n m st' v cls none)
        (fun v c s => map_mono n m s v c none) pre st
      rw [hcomp] at this
      exact this
    have hgt : st.nextOid < st1.nextOid := by
      rw [hst1, cacheStore_nextOid]
      exact hmono
    constructor
    · intro k o2
      simp [map, hfind, hhit1]
    · intro src' k o3 r' st3 hcid hname hfresh hrun'
      obtain ⟨entry', hfind', hcase'⟩ := map_ok_inv k m st1 src' destCls o3 r' st3 hrun'
      rw [hcid, hname, hfind] at hfind'
      injection hfind' with hentry'
      subst hentry'
      have hlook' : cacheLookup st1 (oidOf src') destCls.cid = none := by
        simp [cacheLookup, hfresh]
      rcases hcase' with ⟨hhit', _⟩ | ⟨_, hbody'⟩
      · rw [cachedHit, hcache] at hhit'
        simp [hlook'] at hhit'
      · obtain ⟨pre', stMid', hpre', hcomp', _⟩ :=
          mapTryBody_ok_inv_noAfter _ _ entry src' destCls st1 r' st3 hafter hbody'
        obtain ⟨_, _, _, _, _, _, _, hout', _⟩ :=
          compiledMapFn_ok_inv entry _ pre' st1 r' stMid' hcomp'
        intro heq
        rw [hout', hout] at heq
        injection heq with h1
        omega

/-- Mapper with the global cache enabled and a plain entry from `exClassA`
to `exClassB`. -/
def exMCache : MapperCfg :=
  createMap ⟨[], [], {}, { enabled := some true }⟩ exClassA exClassB none none

/-- The entry `exMCache` stores. -/
def exEntryCache : Entry :=
  { source := exClassA, destination := exClassB, config := none
    options := mergeOptions (some {}) none }

/-- First mapping result in the cache scenario. -/
def exC3r : Value := .obj 0 2 "B" [("x", .str "SRC")]

/-- Mapper state after the first (cache-missing) call. -/
def exC3st1 : MState := ⟨1, [(5, [(2, exC3r)])]⟩

/-- A second source object with the same fields as `exSrcX` but a fresh
identity. -/
def exSrcXCopy : Value := .obj 7 1 "A" [("x", .str "SRC")]

/-- Result recomputed for the structurally equal but distinct source. -/
def exC3r2 : Value := .obj 1 2 "B" [("x", .str "SRC")]

/-- Witness for C3: the repeated call returns the identical cached result
and leaves the state untouched, and the structurally equal fresh object is
recomputed into a distinct result. -/
theorem C3_cache_is_identity_keyed_witness :
    map 1 exMCache exC3st1 exSrcX exClassB none = (.ok exC3r, exC3st1) ∧ exC3r2 ≠ exC3r :=
  ⟨(C3_cache_is_identity_keyed 0 exMCache exSt exSrcX exClassB none exEntryCache exC3r exC3st1
      rfl rfl rfl rfl (by rfl)).1 0 none,
    (C3_cache_is_identity_keyed 0 exMCache exSt exSrcX exClassB none exEntryCache exC3r exC3st1
      rfl rfl rfl rfl (by rfl)).2 exSrcXCopy 0 none exC3r2
      ⟨2, [(5, [(2, exC3r)]), (7, [(2, exC3r2)])]⟩ rfl rfl rfl (by rfl)⟩

/-- C10: the per-call transform-options argument of `map` and `mapAsync` is
accepted but never read, so any two option values (including none at all)
produce identical results and identical final states. -/
theorem C10_transform_options_have_no_effect
    (fuel : Nat) (m : MapperCfg) (st : MState) (src : Value) (destCls : ClassInfo)
    (o1 o2 : Option TransformOptions) :
    map fuel m st src destCls o1 = map fuel m st src destCls o2 ∧
    mapAsync fuel m st src destCls o1 = mapAsync fuel m st src destCls o2 := by
  cases fuel <;> exact ⟨rfl, rfl⟩

/-- A class distinct from `exClassA` but carrying the same name string. -/
def exClassA2 : ClassInfo := .mk 3 "A" [] [] [] [] []

/-- Mapper in which two distinct classes named `A` have each registered an
entry towards `exClassB`. -/
def exMC8 : MapperCfg :=
  createMap (createMap ⟨[], [], {}, {}⟩ exClassA exClassB none none) exClassA2 exClassB none none

/-- Counterexample to C8: looking up the pair (`exClassA`, `exClassB`)
returns the entry registered for the *distinct* class `exClassA2`, because
the registry key is built from class names — the later same-named
registration shadows the earlier one, so two distinct class values do
share/shadow one registry entry. -/
theorem C8_counterexample :
    (findEntry exMC8 exClassA exClassB).map (fun e => e.source.cid) = some exClassA2.cid ∧
    exClassA2.cid ≠ exClassA.cid := by
  exact ⟨rfl, by decide⟩

/-- C8 as amended: registry entries are keyed by the concatenated class
names, not by class identities — whenever the name key is present in the
reverse registry, that entry is what lookup returns, for every pair of
classes carrying those names (the identity-comparing linear scan is only a
fallback for a missing name key). -/
theorem C8_amended_registry_is_name_keyed
    (m : MapperCfg) (s1 d1 s2 d2 : ClassInfo) (e : Entry)
    (hs : s1.name = s2.name) (hd : d1.name = d2.name)
    (hget : getAssoc m.reverseRegistry (getRegistryKey s1 d1) = some e) :
    findEntry m s1 d1 = some e ∧ findEntry m s2 d2 = some e := by
  unfold getRegistryKey at hget
  constructor
  · unfold findEntry findEntryBy
    rw [hget]
  · unfold findEntry findEntryBy
    rw [← hs, ← hd, hget]

/-- The later entry stored by `exMC8` under the key built from the names
`A` and `B`. -/
def exEntryA2B : Entry :=
  { source := exClassA2, destination := exClassB, config := none
    options := mergeOptions (some {}) none }

/-- Witness for the amended C8: both same-named classes resolve to the one
name-keyed entry. -/
theorem C8_amended_registry_is_name_keyed_witness :
    findEntry exMC8 exClassA exClassB = some exEntryA2B ∧
    findEntry exMC8 exClassA2 exClassB = some exEntryA2B :=
  C8_amended_registry_is_name_keyed exMC8 exClassA exClassB exClassA2 exClassB exEntryA2B
    rfl rfl rfl

/-- Counterexample to C9: the converter is not total — on the empty input
string with a capitalising target style it reads `undefined[0]` and throws
a TypeError instead of returning a string. -/
theorem C9_counterexample :
    convertNamingConvention "" .snake_case .pascalCase =
      .error (.typeError "Cannot read properties of undefined") := by rfl

theorem jsToLower_ne_empty (w : String) (h : w ≠ "") : jsToLower w ≠ "" := by
  intro hcontra
  apply h
  cases w with
  | mk data =>
      cases data with
      | nil => rfl
      | cons c rest =>
          simp [jsToLower] at hcontra
          exact absurd hcontra (by simp [String.ext_iff])

theorem capitalize_ok_of_ne_empty (w : String) (h : w ≠ "") :
    ∃ s, capitalize w = .ok s := by
  cases w with
  | mk data =>
      cases data with
      | nil => exact absurd rfl h
      | cons c rest => exact ⟨String.mk (Char.toUpper c :: rest), rfl⟩

theorem camelJoin_ok (ws : List String) (h : ∀ w ∈ ws, w ≠ "") :
    ∀ i, ∃ s, camelJoin i ws = .ok s := by
  induction ws with
  | nil => intro i; exact ⟨"", rfl⟩
  | cons w rest ih =>
      intro i
      have hw : w ≠ "" := h w (List.mem_cons_self _ _)
      have hrest : ∀ w' ∈ rest, w' ≠ "" := fun w' hw' => h w' (List.mem_cons_of_mem _ hw')
      obtain ⟨s, hs⟩ := ih hrest (i + 1)
      by_cases hi : i = 0
      · subst hi
        exact ⟨w ++ s, by simp [camelJoin, hs]⟩
      · obtain ⟨c, hc⟩ := capitalize_ok_of_ne_empty w hw
        exact ⟨c ++ s, by simp only [camelJoin, hi, if_false, hc, hs]; rfl⟩

theorem pascalJoin_ok (ws : List String) (h : ∀ w ∈ ws, w ≠ "") :
    ∃ s, pascalJoin ws = .ok s := by
  induction ws with
  | nil => exact ⟨"", rfl⟩
  | cons w rest ih =>
      have hw : w ≠ "" := h w (List.mem_cons_self _ _)
      have hrest : ∀ w' ∈ rest, w' ≠ "" := fun w' hw' => h w' (List.mem_cons_of_mem _ hw')
      obtain ⟨s, hs⟩ := ih hrest
      obtain ⟨c, hc⟩ := capitalize_ok_of_ne_empty w hw
      exact ⟨c ++ s, by simp only [pascalJoin, hc, hs]; rfl⟩

/-- C9 as amended: the converter is pure but not total.  It never throws
when the target style is `snake_case` or `kebab-case`, and never throws
when every word derived from the input is nonempty; the remaining cases —
an empty derived word (empty input, or empty segments from
leading/trailing/doubled separators) that a capitalising target must
process — throw a TypeError, as the counterexample shows. -/
theorem C9_amended_convert_totality_conditions
    (propertyName : String) (fromStyle toStyle : Style)
    (h : toStyle = .snake_case ∨ toStyle = .kebab_case ∨
      ∀ w ∈ wordsFor propertyName fromStyle, w ≠ "") :
    ∃ out, convertNamingConvention propertyName fromStyle toStyle = .ok out := by
  cases toStyle with
  | snake_case => exact ⟨_, rfl⟩
  | kebab_case => exact ⟨_, rfl⟩
  | camelCase =>
      rcases h with h | h | h
      · cases h
      · cases h
      · have hall : ∀ w ∈ (wordsFor propertyName fromStyle).map jsToLower, w ≠ "" := by
          intro w hw
          obtain ⟨w0, hw0, rfl⟩ := List.mem_map.mp hw
          exact jsToLower_ne_empty w0 (h w0 hw0)
        obtain ⟨s, hs⟩ := camelJoin_ok _ hall 0
        exact ⟨s, by simpa [convertNamingConvention] using hs⟩
  | pascalCase =>
      rcases h with h | h | h
      · cases h
      · cases h
      · have hall : ∀ w ∈ (wordsFor propertyName fromStyle).map jsToLower, w ≠ "" := by
          intro w hw
          obtain ⟨w0, hw0, rfl⟩ := List.mem_map.mp hw
          exact jsToLower_ne_empty w0 (h w0 hw0)
        obtain ⟨s, hs⟩ := pascalJoin_ok _ hall
        exact ⟨s, by simpa [convertNamingConvention] using hs⟩

/-- Witness for the amended C9: a well-segmented snake_case name converts
to camelCase without throwing. -/
theorem C9_amended_convert_totality_conditions_witness :
    (∀ w ∈ wordsFor "user_name" .snake_case, w ≠ "") ∧
    ∃ out, convertNamingConvention "user_name" .snake_case .camelCase = .ok out :=
  ⟨by decide,
    C9_amended_convert_totality_conditions "user_name" .snake_case .camelCase
      (Or.inr (Or.inr (by decide)))⟩

/-- Entry options whose `beforeMap` hook always throws a raw error. -/
def exHookBoomOpts : EntryOptions :=
  { beforeMap := some (fun _ => .error (.raw "boom")) }

/-- Mapper with one entry whose `beforeMap` hook throws. -/
def exMC2 : MapperCfg :=
  createMap ⟨[], [], {}, {}⟩ exClassA exClassB none (some exHookBoomOpts)

/-- The entry `exMC2` stores. -/
def exEntryC2 : Entry :=
  { source := exClassA, destination := exClassB, config := none
    options := mergeOptions (some {}) (some exHookBoomOpts) }

/-- Counterexample to C2: on the same throwing `beforeMap` hook, `map`
re-raises a `MappingError` wrapping the cause, but `mapAsync` propagates
the raw hook error unwrapped — it is not a `MappingError` at all, so
`mapAsync` does not share `map`'s wrapping contract. -/
theorem C2_counterexample :
    mapAsync 1 exMC2 exSt exSrcX exClassB none = (.error (.raw "boom"), exSt) ∧
    map 1 exMC2 exSt exSrcX exClassB none =
      (.error (.mappingError "A" "B" "Mapping failed" (some (.raw "boom"))), exSt) ∧
    (∀ sn dn msg c, Err.raw "boom" ≠ .mappingError sn dn msg c) := by
  refine ⟨rfl, rfl, ?_⟩
  intro sn dn msg c h
  exact Err.noConfusion h

/-- C2 as amended: `map` never lets an exception escape unwrapped — every
error it returns (given fuel) is a `MappingError` carrying the source type
name and the destination type name, with the original cause attached on
the wrapped path; `mapAsync`, by contrast, has no try/catch around its
hook/closure pipeline, and an error thrown by its `beforeMap` hook reaches
the caller unchanged. -/
theorem C2_amended_error_propagation :
    (∀ fuel : Nat, ∀ m st src destCls o e st',
        map (fuel + 1) m st src destCls o = (.error e, st') →
        ∃ msg cause, e = .mappingError (ctorNameOf src) destCls.name msg cause) ∧
    (∀ fuel : Nat, ∀ m st src destCls o entry hook e,
        findEntryBy m (cidOf src) (ctorNameOf src) destCls.cid destCls.name = some entry →
        isCacheEnabled m entry = false →
        entry.options.beforeMap = some hook →
        hook (deepClone src) = .error e →
        mapAsync (fuel + 1) m st src destCls o = (.error e, st)) := by
  constructor
  · intro fuel m st src destCls o e st' h
    simp only [map] at h
    cases hfind : findEntryBy m (cidOf src) (ctorNameOf src) destCls.cid destCls.name with
    | none =>
        simp only [hfind, Prod.mk.injEq] at h
        obtain ⟨h1, _⟩ := h
        injection h1 with h1
        exact ⟨"Mapping not found", none, h1.symm⟩
    | some entry =>
        simp only [hfind] at h
        cases hhit : cachedHit m entry st src destCls with
        | some c => simp [hhit] at h
        | none =>
            simp only [hhit] at h
            cases hbody : mapTryBody (fun v cls st' => map fuel m st' v cls none)
                (isCacheEnabled m entry) entry src destCls st with
            | mk res st0 =>
                cases res with
                | error e0 =>
                    simp only [hbody, Prod.mk.injEq] at h
                    obtain ⟨h1, _⟩ := h
                    injection h1 with h1
                    exact ⟨"Mapping failed", some e0, h1.symm⟩
                | ok v => simp [hbody] at h
  · intro fuel m st src destCls o entry hook e hget hcache hbm hhook
    have hhit : cachedHit m entry st src destCls = none := by
      simp [cachedHit, hcache]
    simp [mapAsync, hget, hhit, hbm, hhook]

/-- Pure element-wise nested mapping, the effect of
`nestedVal.map(it => this.map(it, nestedType))` when the recursion callback
is state-invariant. -/
def mapElemsPure (pureR : Value → ClassInfo → Except Err Value) (ncls : ClassInfo) :
    List Value → Except Err (List Value)
  | [] => .ok []
  | v :: vs =>
      match pureR v ncls with
      | .error e => .error e
      | .ok w =>
          match mapElemsPure pureR ncls vs with
          | .error e => .error e
          | .ok ws => .ok (w :: ws)

theorem mapElems_pure
    (recurse : Value → ClassInfo → MState → (Except Err Value) × MState)
    (pureR : Value → ClassInfo → Except Err Value)
    (hrec : ∀ v c s, recurse v c s = (pureR v c, s)) (ncls : ClassInfo) :
    ∀ items : List Value, ∀ st,
      mapElems recurse ncls items st = (mapElemsPure pureR ncls items, st) := by
  intro items
  induction items with
  | nil => intro st; rfl
  | cons v vs ih =>
      intro st
      simp only [mapElems, mapElemsPure, hrec v ncls st]
      cases hv : pureR v ncls with
      | error e => rfl
      | ok w =>
          simp only [ih st]
          cases hvs : mapElemsPure pureR ncls vs with
          | error e => rfl
          | ok ws => rfl

/-- The effect of one iteration of the annotation-driven loop on the
destination field list, for a state-invariant recursion callback: the
guard, then source-path, nested-factory and same-named-copy resolution in
the source's branch order. -/
def decoratorOne (dst : ClassInfo) (config : Option (List (String × FieldFn)))
    (pureR : Value → ClassInfo → Except Err Value) (src : Value) (destKey : String)
    (dest : List (String × Value)) : Except Err (List (String × Value)) :=
  if configHasKey config destKey || destDefined dest destKey then .ok dest
  else
    match getAssoc dst.pathMeta destKey with
    | some sourcePath =>
        match applyTransformerOpt (getAssoc dst.transformMeta destKey)
            (resolvePath src sourcePath) src with
        | .error e => .error e
        | .ok newVal => .ok (setAssoc dest destKey newVal)
    | none =>
        match getAssoc dst.nestedMeta destKey with
        | some nestedType =>
            match jsGet src destKey with
            | .error e => .error e
            | .ok nestedVal =>
                if isNull nestedVal || isUndefined nestedVal then
                  .ok (setAssoc dest destKey nestedVal)
                else
                  match nestedVal with
                  | .arr items =>
                      match mapElemsPure pureR nestedType items with
                      | .error e => .error e
                      | .ok ws => .ok (setAssoc dest destKey (.arr ws))
                  | _ =>
                      match pureR nestedVal nestedType with
                      | .error e => .error e
                      | .ok w => .ok (setAssoc dest destKey w)
        | none =>
            match jsIn src destKey with
            | .error e => .error e
            | .ok true =>
                match applyTransformerOpt (getAssoc dst.transformMeta destKey)
                    (readField src destKey) src with
                | .error e => .error e
                | .ok newVal => .ok (setAssoc dest destKey newVal)
            | .ok false => .ok dest

/-- The value one annotation-driven iteration resolves for a field whose
guard passes: `some v` when the field is assigned `v`, `none` when it is
left alone; independent of the destination accumulator. -/
def resolveOne (dst : ClassInfo) (pureR : Value → ClassInfo → Except Err Value)
    (src : Value) (destKey : String) : Except Err (Option Value) :=
  match getAssoc dst.pathMeta destKey with
  | some sourcePath =>
      match applyTransformerOpt (getAssoc dst.transformMeta destKey)
          (resolvePath src sourcePath) src with
      | .error e => .error e
      | .ok newVal => .ok (some newVal)
  | none =>
      match getAssoc dst.nestedMeta destKey with
      | some nestedType =>
          match jsGet src destKey with
          | .error e => .error e
          | .ok nestedVal =>
              if isNull nestedVal || isUndefined nestedVal then .ok (some nestedVal)
              else
                match nestedVal with
                | .arr items =>
                    match mapElemsPure pureR nestedType items with
                    | .error e => .error e
                    | .ok ws => .ok (some (.arr ws))
                | _ =>
                    match pureR nestedVal nestedType with
                    | .error e => .error e
                    | .ok w => .ok (some w)
      | none =>
          match jsIn src destKey with
          | .error e => .error e
          | .ok true =>
              match applyTransformerOpt (getAssoc dst.transformMeta destKey)
                  (readField src destKey) src with
              | .error e => .error e
              | .ok newVal => .ok (some newVal)
          | .ok false => .ok none

theorem decoratorOne_spec (dst : ClassInfo) (config : Option (List (String × FieldFn)))
    (pureR : Value → ClassInfo → Except Err Value) (src : Value) (destKey : String)
    (dest : List (String × Value))
    (hcfg : configHasKey config destKey = false)
    (hdefined : destDefined dest destKey = false) :
    decoratorOne dst config pureR src destKey dest =
      (resolveOne dst pureR src destKey).map
        (fun res => match res with
                    | some v => setAssoc dest destKey v
                    | none => dest) := by
  have hg : (configHasKey config destKey || destDefined dest destKey) = false := by
    simp [hcfg, hdefined]
  unfold decoratorOne resolveOne
  rw [hg]
  simp only [Bool.false_eq_true, if_false]
  cases hpath : getAssoc dst.pathMeta destKey with
  | some sourcePath =>
      cases htr : applyTransformerOpt (getAssoc dst.transformMeta destKey)
          (resolvePath src sourcePath) src with
      | error e => simp [htr, Except.map]
      | ok newVal => simp [htr, Except.map]
  | none =>
      cases hnested : getAssoc dst.nestedMeta destKey with
      | some nestedType =>
          cases hget : jsGet src destKey with
          | error e => simp [hget, Except.map]
          | ok nestedVal =>
              cases hnu : (isNull nestedVal || isUndefined nestedVal) with
              | true => simp [hget, hnu, Except.map]
              | false =>
                  simp only [hget, hnu, Bool.false_eq_true, if_false]
                  cases nestedVal with
                  | arr items =>
                      cases hmp : mapElemsPure pureR nestedType items with
                      | error e => simp [hmp, Except.map]
                      | ok ws => simp [hmp, Except.map]
                  | vnull => simp [isNull] at hnu
                  | vundefined => simp [isUndefined] at hnu
                  | num n =>
                      cases hp : pureR (.num n) nestedType with
                      | error e => simp [hp, Except.map]
                      | ok w => simp [hp, Except.map]
                  | str s =>
                      cases hp : pureR (.str s) nestedType with
                      | error e => simp [hp, Except.map]
                      | ok w => simp [hp, Except.map]
                  | bool b =>
                      cases hp : pureR (.bool b) nestedType with
                      | error e => simp [hp, Except.map]
                      | ok w => simp [hp, Except.map]
                  | obj oid cid cname fs =>
                      cases hp : pureR (.obj oid cid cname fs) nestedType with
                      | error e => simp [hp, Except.map]
                      | ok w => simp [hp, Except.map]
      | none =>
          cases hin : jsIn src destKey with
          | error e => simp [hin, Except.map]
          | ok b =>
              cases b with
              | true =>
                  cases htr : applyTransformerOpt (getAssoc dst.transformMeta destKey)
                      (readField src destKey) src with
                  | error e => simp [htr, Except.map]
                  | ok newVal => simp [htr, Except.map]
              | false => simp [hin, Except.map]

theorem decoratorOne_ok_shape (dst : ClassInfo) (config : Option (List (String × FieldFn)))
    (pureR : Value → ClassInfo → Except Err Value) (src : Value) (destKey : String)
    (dest dest1 : List (String × Value))
    (h : decoratorOne dst config pureR src destKey dest = .ok dest1) :
    dest1 = dest ∨ ∃ v, dest1 = setAssoc dest destKey v := by
  unfold decoratorOne at h
  cases hg : (configHasKey config destKey || destDefined dest destKey) with
  | true =>
      simp only [hg, if_true] at h
      injection h with h
      exact .inl h.symm
  | false =>
      simp only [hg, Bool.false_eq_true, if_false] at h
      cases hpath : getAssoc dst.pathMeta destKey with
      | some sourcePath =>
          cases htr : applyTransformerOpt (getAssoc dst.transformMeta destKey)
              (resolvePath src sourcePath) src with
          | error e => simp [hpath, htr] at h
          | ok newVal =>
              simp only [hpath, htr] at h
              injection h with h
              exact .inr ⟨newVal, h.symm⟩
      | none =>
          cases hnested : getAssoc dst.nestedMeta destKey with
          | some nestedType =>
              cases hget : jsGet src destKey with
              | error e => simp [hpath, hnested, hget] at h
              | ok nestedVal =>
                  cases hnu : (isNull nestedVal || isUndefined nestedVal) with
                  | true =>
                      simp only [hpath, hnested, hget, hnu, if_true] at h
                      injection h with h
                      exact .inr ⟨nestedVal, h.symm⟩
                  | false =>
                      simp only [hpath, hnested, hget, hnu, Bool.false_eq_true, if_false] at h
                      cases nestedVal with
                      | arr items =>
                          cases hmp : mapElemsPure pureR nestedType items with
                          | error e => simp [hmp] at h
                          | ok ws =>
                              simp only [hmp] at h
                              injection h with h
                              exact .inr ⟨.arr ws, h.symm⟩
                      | vnull => simp [isNull] at hnu
                      | vundefined => simp [isUndefined] at hnu
                      | num n =>
                          cases hp : pureR (.num n) nestedType with
                          | error e => simp [hp] at h
                          | ok w =>
                              simp only [hp] at h
                              injection h with h
                              exact .inr ⟨w, h.symm⟩
                      | str s =>
                          cases hp : pureR (.str s) nestedType with
                          | error e => simp [hp] at h
                          | ok w =>
                              simp only [hp] at h
                              injection h with h
                              exact .inr ⟨w, h.symm⟩
                      | bool b =>
                          cases hp : pureR (.bool b) nestedType with
                          | error e => simp [hp] at h
                          | ok w =>
                              simp only [hp] at h
                              injection h with h
                              exact .inr ⟨w, h.symm⟩
                      | obj oid cid cname fs =>
                          cases hp : pureR (.obj oid cid cname fs) nestedType with
                          | error e => simp [hp] at h
                          | ok w =>
                              simp only [hp] at h
                              injection h with h
                              exact .inr ⟨w, h.symm⟩
          | none =>
              cases hin : jsIn src destKey with
              | error e => simp [hpath, hnested, hin] at h
              | ok b =>
                  cases b with
                  | true =>
                      cases htr : applyTransformerOpt (getAssoc dst.transformMeta destKey)
                          (readField src destKey) src with
                      | error e => simp [hpath, hnested, hin, htr] at h
                      | ok newVal =>
                          simp only [hpath, hnested, hin, htr] at h
                          injection h with h
                          exact .inr ⟨newVal, h.symm⟩
                  | false =>
                      simp only [hpath, hnested, hin] at h
                      injection h with h
                      exact .inl h.symm

theorem decoratorStepGo_cons_pure (dst : ClassInfo)
    (config : Option (List (String × FieldFn)))
    (recurse : Value → ClassInfo → MState → (Except Err Value) × MState)
    (pureR : Value → ClassInfo → Except Err Value)
    (hrec : ∀ v c s, recurse v c s = (pureR v c, s))
    (src : Value) (destKey : String) (rest : List String)
    (dest : List (String × Value)) (st : MState) :
    decoratorStepGo dst config recurse src (destKey :: rest) dest st =
      (match decoratorOne dst config pureR src destKey dest with
       | .error e => (.error e, st)
       | .ok dest1 => decoratorStepGo dst config recurse src rest dest1 st) := by
  cases hg : (configHasKey config destKey || destDefined dest destKey) with
  | true => simp [decoratorStepGo, decoratorOne, hg]
  | false =>
      cases hpath : getAssoc dst.pathMeta destKey with
      | some sourcePath =>
          cases htr : applyTransformerOpt (getAssoc dst.transformMeta destKey)
              (resolvePath src sourcePath) src with
          | error e => simp [decoratorStepGo, decoratorOne, hg, hpath, htr]
          | ok newVal => simp [decoratorStepGo, decoratorOne, hg, hpath, htr]
      | none =>
          cases hnested : getAssoc dst.nestedMeta destKey with
          | some nestedType =>
              cases hget : jsGet src destKey with
              | error e => simp [decoratorStepGo, decoratorOne, hg, hpath, hnested, hget]
              | ok nestedVal =>
                  cases hnu : (isNull nestedVal || isUndefined nestedVal) with
                  | true => simp [decoratorStepGo, decoratorOne, hg, hpath, hnested, hget, hnu]
                  | false =>
                      cases nestedVal with
                      | arr items =>
                          cases hmp : mapElemsPure pureR nestedType items with
                          | error e =>
                              simp [decoratorStepGo, decoratorOne, hg, hpath, hnested, hget,
                                hnu, mapElems_pure recurse pureR hrec, hmp]
                          | ok ws =>
                              simp [decoratorStepGo, decoratorOne, hg, hpath, hnested, hget,
                                hnu, mapElems_pure recurse pureR hrec, hmp]
                      | vnull => simp [isNull] at hnu
                      | vundefined => simp [isUndefined] at hnu
                      | num n =>
                          cases hp : pureR (.num n) nestedType with
                          | error e =>
                              simp [decoratorStepGo, decoratorOne, hg, hpath, hnested, hget,
                                hnu, hrec, hp]
                          | ok w =>
                              simp [decoratorStepGo, decoratorOne, hg, hpath, hnested, hget,
                                hnu, hrec, hp]
                      | str s =>
                          cases hp : pureR (.str s) nestedType with
                          | error e =>
                              simp [decoratorStepGo, decoratorOne, hg, hpath, hnested, hget,
                                hnu, hrec, hp]
                          | ok w =>
                              simp [decoratorStepGo, decoratorOne, hg, hpath, hnested, hget,
                                hnu, hrec, hp]
                      | bool b =>
                          cases hp : pureR (.bool b) nestedType with
                          | error e =>
                              simp [decoratorStepGo, decoratorOne, hg, hpath, hnested, hget,
                                hnu, hrec, hp]
                          | ok w =>
                              simp [decoratorStepGo, decoratorOne, hg, hpath, hnested, hget,
                                hnu, hrec, hp]
                      | obj oid cid cname fs =>
                          cases hp : pureR (.obj oid cid cname fs) nestedType with
                          | error e =>
                              simp [decoratorStepGo, decoratorOne, hg, hpath, hnested, hget,
                                hnu, hrec, hp]
                          | ok w =>
                              simp [decoratorStepGo, decoratorOne, hg, hpath, hnested, hget,
                                hnu, hrec, hp]
          | none =>
              cases hin : jsIn src destKey with
              | error e => simp [decoratorStepGo, decoratorOne, hg, hpath, hnested, hin]
              | ok b =>
                  cases b with
                  | true =>
                      cases htr : applyTransformerOpt (getAssoc dst.transformMeta destKey)
                          (readField src destKey) src with
                      | error e =>
                          simp [decoratorStepGo, decoratorOne, hg, hpath, hnested, hin, htr]
                      | ok newVal =>
                          simp [decoratorStepGo, decoratorOne, hg, hpath, hnested, hin, htr]
                  | false => simp [decoratorStepGo, decoratorOne, hg, hpath, hnested, hin]

theorem decoratorStepGo_at_key (dst : ClassInfo)
    (config : Option (List (String × FieldFn)))
    (recurse : Value → ClassInfo → MState → (Except Err Value) × MState)
    (pureR : Value → ClassInfo → Except Err Value)
    (hrec : ∀ v c s, recurse v c s = (pureR v c, s))
    (src : Value) (destKey : String) :
    ∀ keys : List String, keys.Nodup → destKey ∈ keys →
      ∀ dest st d' st' res,
        configHasKey config destKey = false →
        destDefined dest destKey = false →
        decoratorStepGo dst config recurse src keys dest st = (.ok d', st') →
        resolveOne dst pureR src destKey = .ok res →
        getAssoc d' destKey =
          (match res with
           | some v => some v
           | none => getAssoc dest destKey) := by
  intro keys
  induction keys with
  | nil => intro _ hmem; cases hmem
  | cons k0 rest ih =>
      intro hnd hmem dest st d' st' res hcfg hdefined hrun hres
      obtain ⟨hk0notin, hndrest⟩ := List.nodup_cons.mp hnd
      rw [decoratorStepGo_cons_pure dst config recurse pureR hrec src k0 rest dest st] at hrun
      by_cases hk : k0 = destKey
      · subst hk
        rw [decoratorOne_spec dst config pureR src k0 dest hcfg hdefined, hres] at hrun
        simp only [Except.map] at hrun
        cases res with
        | some v =>
            simp only at hrun
            have := decoratorStepGo_preserve_notMem dst config recurse src k0 rest hk0notin
              (setAssoc dest k0 v) st d' st' hrun
            rw [this, getAssoc_setAssoc_self]
        | none =>
            simp only at hrun
            exact decoratorStepGo_preserve_notMem dst config recurse src k0 rest hk0notin
              dest st d' st' hrun
      · have hmem' : destKey ∈ rest := by
          rcases List.mem_cons.mp hmem with h | h
          · exact absurd h.symm hk
          · exact h
        cases hone : decoratorOne dst config pureR src k0 dest with
        | error e => simp [hone] at hrun
        | ok dest1 =>
            simp only [hone] at hrun
            have hpres : getAssoc dest1 destKey = getAssoc dest destKey := by
              rcases decoratorOne_ok_shape dst config pureR src k0 dest dest1 hone with h | ⟨v, hv⟩
              · rw [h]
              · rw [hv]; exact getAssoc_setAssoc_ne dest destKey k0 v hk
            have hdefined1 : destDefined dest1 destKey = false := by
              simp only [destDefined] at hdefined ⊢
              rw [hpres]
              exact hdefined
            have := ih hndrest hmem' dest1 st d' st' res hcfg hdefined1 hrun hres
            rw [this]
            cases res with
            | some v => rfl
            | none => exact hpres

/-- Witness for the amended C2: the wrapped error produced by `map` on the
throwing hook indeed carries both type names, and `mapAsync` returns the
raw hook error as-is. -/
theorem C2_amended_error_propagation_witness :
    (∃ msg cause, Err.mappingError "A" "B" "Mapping failed" (some (.raw "boom")) =
        .mappingError (ctorNameOf exSrcX) exClassB.name msg cause) ∧
    mapAsync 1 exMC2 exSt exSrcX exClassB none = (.error (.raw "boom"), exSt) :=
  ⟨C2_amended_error_propagation.1 0 exMC2 exSt exSrcX exClassB none
      (.mappingError "A" "B" "Mapping failed" (some (.raw "boom"))) exSt (by rfl),
    C2_amended_error_propagation.2 0 exMC2 exSt exSrcX exClassB none exEntryC2
      (fun _ => .error (.raw "boom")) (.raw "boom") rfl rfl rfl rfl⟩

/-- The key under which a forward field-function entry lands in the
derived reverse table: its `__sourcePath` tag when present, else its own
destination key. -/
def revKeyOf (q : String × FieldFn) : String := q.2.sourcePath.getD q.1

/-- The reverse field function derived for a forward entry on `destKey`:
it reads `destKey` off the forward destination value and carries no tag. -/
def mkRevFn (destKey : String) : FieldFn :=
  { fn := fun src => jsGet src destKey, sourcePath := none }

theorem setAssoc_eq_append {κ α : Type} [DecidableEq κ] :
    ∀ l : List (κ × α), ∀ k v, k ∉ l.map Prod.fst → setAssoc l k v = l ++ [(k, v)] := by
  intro l
  induction l with
  | nil => intro k v _; rfl
  | cons p rest ih =>
      intro k v h
      obtain ⟨k0, v0⟩ := p
      simp only [List.map, List.mem_cons] at h
      push_neg at h
      obtain ⟨h1, h2⟩ := h
      simp only [setAssoc, if_neg (Ne.symm h1), List.cons_append]
      rw [ih k v h2]

theorem reverseConfigOf_eq_map :
    ∀ cfg : List (String × FieldFn), (cfg.map revKeyOf).Nodup →
      reverseConfigOf cfg = cfg.map (fun q => (revKeyOf q, mkRevFn q.1)) := by
  have general : ∀ cfg : List (String × FieldFn), ∀ acc, (cfg.map revKeyOf).Nodup →
      (∀ q ∈ cfg, revKeyOf q ∉ acc.map Prod.fst) →
      List.foldl
        (fun rc p =>
          match p.2.sourcePath with
          | some sp => setAssoc rc sp { fn := fun src => jsGet src p.1, sourcePath := none }
          | none => setAssoc rc p.1 { fn := fun src => jsGet src p.1, sourcePath := none })
        acc cfg = acc ++ cfg.map (fun q => (revKeyOf q, mkRevFn q.1)) := by
    intro cfg
    induction cfg with
    | nil => intro acc _ _; simp
    | cons q rest ih =>
        intro acc hnd hfresh
        have hstep : (match q.2.sourcePath with
            | some sp => setAssoc acc sp { fn := fun src => jsGet src q.1, sourcePath := none }
            | none => setAssoc acc q.1 { fn := fun src => jsGet src q.1, sourcePath := none })
            = setAssoc acc (revKeyOf q) (mkRevFn q.1) := by
          cases hsp : q.2.sourcePath with
          | some sp => simp [revKeyOf, mkRevFn, hsp]
          | none => simp [revKeyOf, mkRevFn, hsp]
        simp only [List.foldl_cons, hstep]
        rw [setAssoc_eq_append acc (revKeyOf q) (mkRevFn q.1)
          (hfresh q (List.mem_cons_self _ _))]
        simp only [List.map, List.nodup_cons] at hnd
        obtain ⟨hq, hnd'⟩ := hnd
        have hfresh' : ∀ q' ∈ rest,
            revKeyOf q' ∉ (acc ++ [(revKeyOf q, mkRevFn q.1)]).map Prod.fst := by
          intro q' hq' hmem
          rw [List.map_append] at hmem
          rcases List.mem_append.mp hmem with h | h
          · exact hfresh q' (List.mem_cons_of_mem _ hq') h
          · simp only [List.map, List.mem_singleton] at h
            exact hq (h ▸ List.mem_map.mpr ⟨q', hq', rfl⟩)
        rw [ih (acc ++ [(revKeyOf q, mkRevFn q.1)]) hnd' hfresh']
        simp
  intro cfg hnd
  simpa [reverseConfigOf] using general cfg [] hnd (by simp)

theorem mergeOptions_default : mergeOptions (some ({} : EntryOptions)) none = {} := rfl

theorem mergeOptions_default2 :
    mergeOptions (some ({} : EntryOptions)) (some ({} : EntryOptions)) = {} := rfl

/-- A nested destination class for the annotation scenarios. -/
def exNestedN : ClassInfo := .mk 9 "N" [] [] [] [] []

/-- Destination class whose auto-mapped field `x` carries *both* a
nested-target-type factory annotation and a source-path override. -/
def exClassD : ClassInfo := .mk 8 "D" [] ["x"] [("x", exNestedN)] [("x", "p")] []

/-- Entry towards `exClassD` with no explicit field functions. -/
def exEntryC4 : Entry :=
  { source := exClassA, destination := exClassD, config := none, options := {} }

/-- Source object carrying both a path field `p` and an object under the
annotated key `x`. -/
def exSrcC4 : Value := .obj 11 1 "A" [("p", .str "PATH"), ("x", .obj 12 9 "N" [])]

/-- Recursion callback whose nested mapping always yields `NESTED`. -/
def exRecurseNested : Value → ClassInfo → MState → (Except Err Value) × MState :=
  fun _ _ s => (.ok (.str "NESTED"), s)

/-- Counterexample to C4: on a field annotated with *both* a nested-type
factory and a source-path override, the compiled closure resolves the
source path (yielding `PATH`) and never invokes the nested mapping (which
would yield `NESTED`) — the source-path override is checked first, not the
nested factory as the claim states. -/
theorem C4_counterexample :
    (compiledMapFn exEntryC4 exRecurseNested exSrcC4 exSt).1 =
      .ok (.obj 0 8 "D" [("x", .str "PATH")]) ∧
    getAssoc exClassD.nestedMeta "x" = some exNestedN ∧
    Value.str "PATH" ≠ Value.str "NESTED" := by
  refine ⟨rfl, rfl, ?_⟩
  intro h
  injection h with h1
  exact absurd h1 (by decide)

/-- C4 as amended: for a destination field in the auto-map metadata, not
claimed by a field function and still undefined, the annotation-driven
resolution checks the source-path override *first* (applying the
transformer; the nested annotation is irrelevant on this branch), then
the nested-target-type factory (recursively mapping the sub-value:
null/undefined copied through, arrays element-wise, other values through
one nested map), and only then copies a same-named source field through the
transformer; the recursion callback is assumed state-invariant. -/
theorem C4_amended_annotation_priority_order
    (dst : ClassInfo) (config : Option (List (String × FieldFn)))
    (recurse : Value → ClassInfo → MState → (Except Err Value) × MState)
    (pureR : Value → ClassInfo → Except Err Value)
    (hrec : ∀ v c s, recurse v c s = (pureR v c, s))
    (src : Value) (destKey : String)
    (hnd : dst.autoKeys.Nodup) (hmem : destKey ∈ dst.autoKeys)
    (dest : List (String × Value)) (st : MState) (d' : List (String × Value)) (st' : MState)
    (hcfg : configHasKey config destKey = false)
    (hdefined : destDefined dest destKey = false)
    (hrun : decoratorStepGo dst config recurse src dst.autoKeys dest st = (.ok d', st')) :
    (∀ sourcePath tv, getAssoc dst.pathMeta destKey = some sourcePath →
        applyTransformerOpt (getAssoc dst.transformMeta destKey)
          (resolvePath src sourcePath) src = .ok tv →
        getAssoc d' destKey = some tv) ∧
    (∀ nestedType, getAssoc dst.pathMeta destKey = none →
        getAssoc dst.nestedMeta destKey = some nestedType →
        (∀ nv, jsGet src destKey = .ok nv → (isNull nv || isUndefined nv) = true →
            getAssoc d' destKey = some nv) ∧
        (∀ oid cid cname fs w,
            jsGet src destKey = .ok (.obj oid cid cname fs) →
            pureR (.obj oid cid cname fs) nestedType = .ok w →
            getAssoc d' destKey = some w) ∧
        (∀ items ws, jsGet src destKey = .ok (.arr items) →
            mapElemsPure pureR nestedType items = .ok ws →
            getAssoc d' destKey = some (.arr ws))) ∧
    (getAssoc dst.pathMeta destKey = none →
        getAssoc dst.nestedMeta destKey = none →
        (∀ tv, jsIn src destKey = .ok true →
            applyTransformerOpt (getAssoc dst.transformMeta destKey)
              (readField src destKey) src = .ok tv →
            getAssoc d' destKey = some tv) ∧
        (jsIn src destKey = .ok false →
            getAssoc d' destKey = getAssoc dest destKey)) := by
  have key := fun res hres =>
    decoratorStepGo_at_key dst config recurse pureR hrec src destKey dst.autoKeys hnd hmem
      dest st d' st' res hcfg hdefined hrun hres
  refine ⟨?_, ?_, ?_⟩
  · intro sourcePath tv hpath htr
    have hres : resolveOne dst pureR src destKey = .ok (some tv) := by
      simp [resolveOne, hpath, htr]
    simpa using key (some tv) hres
  · intro nestedType hpath hnested
    refine ⟨?_, ?_, ?_⟩
    · intro nv hget hnu
      have hres : resolveOne dst pureR src destKey = .ok (some nv) := by
        simp [resolveOne, hpath, hnested, hget, hnu]
      simpa using key (some nv) hres
    · intro oid cid cname fs w hget hp
      have hres : resolveOne dst pureR src destKey = .ok (some w) := by
        simp [resolveOne, hpath, hnested, hget, isNull, isUndefined, hp]
      simpa using key (some w) hres
    · intro items ws hget hmp
      have hres : resolveOne dst pureR src destKey = .ok (some (.arr ws)) := by
        simp [resolveOne, hpath, hnested, hget, isNull, isUndefined, hmp]
      simpa using key (some (.arr ws)) hres
  · intro hpath hnested
    refine ⟨?_, ?_⟩
    · intro tv hin htr
      have hres : resolveOne dst pureR src destKey = .ok (some tv) := by
        simp [resolveOne, hpath, hnested, hin, htr]
      simpa using key (some tv) hres
    · intro hin
      have hres : resolveOne dst pureR src destKey = .ok none := by
        simp [resolveOne, hpath, hnested, hin]
      simpa using key none hres

theorem roundtrip_core
    (m2 : MapperCfg) (A B : ClassInfo) (cfg : List (String × FieldFn))
    (hnd : (cfg.map Prod.fst).Nodup)
    (hrevnd : (cfg.map revKeyOf).Nodup)
    (hcoff : m2.cacheConfig.enabled.getD false = false)
    (hfindAB : findEntryBy m2 A.cid A.name B.cid B.name =
      some { source := A, destination := B, config := some cfg, options := {} })
    (hfindBA : findEntryBy m2 B.cid B.name A.cid A.name =
      some { source := B, destination := A, config := some (reverseConfigOf cfg),
             options := {} })
    (so : Nat) (fs : List (String × Value)) (n k : Nat) (st st1 st2 : MState)
    (fwd back : Value) (o1 o2 : Option TransformOptions)
    (hfwd : map (n + 1) m2 st (.obj so A.cid A.name fs) B o1 = (.ok fwd, st1))
    (hback : map (k + 1) m2 st1 fwd A o2 = (.ok back, st2))
    (dk p : String) (hmem : (dk, mapFrom p) ∈ cfg) :
    readField back p = readField (.obj so A.cid A.name fs) p := by
  have hmapform := reverseConfigOf_eq_map cfg hrevnd
  have hmapnd : ((cfg.map (fun q => (revKeyOf q, mkRevFn q.1))).map Prod.fst).Nodup := by
    rw [List.map_map]
    simpa using hrevnd
  -- forward call
  obtain ⟨e1, hf1, hcase1⟩ := map_ok_inv n m2 st _ B o1 fwd st1 hfwd
  simp only [cidOf, ctorNameOf] at hf1
  rw [hfindAB] at hf1
  injection hf1 with hf1
  subst hf1
  have hce1 : isCacheEnabled m2
      { source := A, destination := B, config := some cfg, options := {} } = false := by
    simp [isCacheEnabled, hcoff]
  rcases hcase1 with ⟨hhit, _⟩ | ⟨_, hbody1⟩
  · rw [cachedHit, hce1] at hhit
    simp at hhit
  · obtain ⟨pre, stMid, hpre, hcomp, _⟩ :=
      mapTryBody_ok_inv_noAfter _ _ _ _ _ _ _ _ rfl hbody1
    have hpre2 : (Except.ok (Value.obj so A.cid A.name fs) : Except Err Value) = .ok pre := hpre
    injection hpre2 with hpre2
    subst hpre2
    obtain ⟨d1, d2, d3, stX, hcopy, hcfgStep, hdec, hout0, _⟩ :=
      compiledMapFn_ok_inv _ _ _ _ _ _ hcomp
    have hout : fwd = .obj st.nextOid B.cid B.name d3 := hout0
    subst hout
    have hcfgStep2 : configStepGo ({} : EntryOptions) (.obj so A.cid A.name fs) cfg d1 =
        .ok d2 := hcfgStep
    have hfnval : (mapFrom p).fn (.obj so A.cid A.name fs) =
        .ok (readField (.obj so A.cid A.name fs) p) := rfl
    have hd2 : getAssoc d2 dk = some (readField (.obj so A.cid A.name fs) p) :=
      configStepGo_sets _ _ cfg d1 d2 dk (mapFrom p) _ hnd hcfgStep2 hmem hfnval rfl
    have hkey : configHasKey (some cfg) dk = true := by
      simp [configHasKey, getAssoc_of_mem_nodup cfg dk (mapFrom p) hnd hmem]
    have hd3 : getAssoc d3 dk = some (readField (.obj so A.cid A.name fs) p) := by
      rw [decoratorStepGo_preserve_configKey _ _ _ _ dk hkey _ d2 _ d3 stX hdec]
      exact hd2
    -- backward call
    obtain ⟨e2, hf2, hcase2⟩ := map_ok_inv k m2 st1 _ A o2 back st2 hback
    simp only [cidOf, ctorNameOf] at hf2
    rw [hfindBA] at hf2
    injection hf2 with hf2
    subst hf2
    have hce2 : isCacheEnabled m2
        { source := B, destination := A, config := some (reverseConfigOf cfg),
          options := {} } = false := by
      simp [isCacheEnabled, hcoff]
    rcases hcase2 with ⟨hhit2, _⟩ | ⟨_, hbody2⟩
    · rw [cachedHit, hce2] at hhit2
      simp at hhit2
    · obtain ⟨pre2, stMid2, hpreB, hcomp2, _⟩ :=
        mapTryBody_ok_inv_noAfter _ _ _ _ _ _ _ _ rfl hbody2
      have hpreB2 : (Except.ok (Value.obj st.nextOid B.cid B.name d3) : Except Err Value) =
          .ok pre2 := hpreB
      injection hpreB2 with hpreB2
      subst hpreB2
      obtain ⟨d1r, d2r, d3r, stY, hcopyR, hcfgStepR, hdecR, houtR0, _⟩ :=
        compiledMapFn_ok_inv _ _ _ _ _ _ hcomp2
      have houtR : back = .obj st1.nextOid A.cid A.name d3r := houtR0
      subst houtR
      have hcfgStepR2 : configStepGo ({} : EntryOptions) (.obj st.nextOid B.cid B.name d3)
          (reverseConfigOf cfg) d1r = .ok d2r := hcfgStepR
      rw [hmapform] at hcfgStepR2
      have hmem2 : (p, mkRevFn dk) ∈ cfg.map (fun q => (revKeyOf q, mkRevFn q.1)) :=
        List.mem_map.mpr ⟨(dk, mapFrom p), hmem, by simp [revKeyOf, mapFrom]⟩
      have hfnvalR : (mkRevFn dk).fn (.obj st.nextOid B.cid B.name d3) =
          .ok (readField (.obj so A.cid A.name fs) p) := by
        simp [mkRevFn, jsGet, readField, hd3]
      have hd2r : getAssoc d2r p = some (readField (.obj so A.cid A.name fs) p) :=
        configStepGo_sets _ _ _ d1r d2r p (mkRevFn dk) _ hmapnd hcfgStepR2 hmem2 hfnvalR rfl
      have hkeyR : configHasKey (some (reverseConfigOf cfg)) p = true := by
        rw [hmapform]
        simp [configHasKey, getAssoc_of_mem_nodup _ p (mkRevFn dk) hmapnd hmem2]
      have hd3r : getAssoc d3r p = some (readField (.obj so A.cid A.name fs) p) := by
        rw [decoratorStepGo_preserve_configKey _ _ _ _ p hkeyR _ d2r _ d3r stY hdecR]
        exact hd2r
      simp [readField, hd3r]

/-- C7: for a forward mapping registered with default options, calling
`createReverseMap` derives a table in which a forward function tagged by
the `mapFrom` helper contributes, under its source path, a function reading
the forward destination key, and an untagged (arbitrary-transform) function
contributes a plain same-key copy — and mapping a forward result back to
the source type reconstructs every `mapFrom`-copied field exactly. -/
theorem C7_reverse_map_roundtrip
    (m0 : MapperCfg) (A B : ClassInfo) (cfg : List (String × FieldFn)) (m2 : MapperCfg)
    (hglobal : m0.globalOptions = {})
    (hcc : m0.cacheConfig.enabled.getD false = false)
    (hkeys : getRegistryKey A B ≠ getRegistryKey B A)
    (hnd : (cfg.map Prod.fst).Nodup)
    (hrevnd : (cfg.map revKeyOf).Nodup)
    (hm2 : createReverseMap (createMap m0 A B (some cfg) none) A B = .ok m2) :
    ((∀ dk fn p, (dk, fn) ∈ cfg → fn.sourcePath = some p →
        getAssoc (reverseConfigOf cfg) p = some (mkRevFn dk)) ∧
     (∀ dk fn, (dk, fn) ∈ cfg → fn.sourcePath = none →
        getAssoc (reverseConfigOf cfg) dk = some (mkRevFn dk))) ∧
    (∀ so : Nat, ∀ fs : List (String × Value), ∀ n k : Nat, ∀ st st1 st2, ∀ fwd back, ∀ o1 o2,
        map (n + 1) m2 st (.obj so A.cid A.name fs) B o1 = (.ok fwd, st1) →
        map (k + 1) m2 st1 fwd A o2 = (.ok back, st2) →
        ∀ dk p, (dk, mapFrom p) ∈ cfg →
          readField back p = readField (.obj so A.cid A.name fs) p) := by
  have hmapform := reverseConfigOf_eq_map cfg hrevnd
  have hmapnd : ((cfg.map (fun q => (revKeyOf q, mkRevFn q.1))).map Prod.fst).Nodup := by
    rw [List.map_map]
    simpa using hrevnd
  constructor
  · constructor
    · intro dk fn p hmem hsp
      rw [hmapform]
      refine getAssoc_of_mem_nodup _ p (mkRevFn dk) hmapnd ?_
      exact List.mem_map.mpr ⟨(dk, fn), hmem, by simp [revKeyOf, hsp]⟩
    · intro dk fn hmem hsp
      rw [hmapform]
      refine getAssoc_of_mem_nodup _ dk (mkRevFn dk) hmapnd ?_
      exact List.mem_map.mpr ⟨(dk, fn), hmem, by simp [revKeyOf, hsp]⟩
  · obtain ⟨reg0, rr0, go0, cc0⟩ := m0
    have hg : go0 = {} := hglobal
    subst hg
    simp only [createReverseMap, createMap, findEntry, findEntryBy, getRegistryKey,
      mergeOptions_default, mergeOptions_default2, getAssoc_setAssoc_self] at hm2
    injection hm2 with hm2
    subst hm2
    intro so fs n k st st1 st2 fwd back o1 o2 hfwd hback dk p hmem
    have hkeys2 : (B.name ++ "->" ++ A.name) ≠ (A.name ++ "->" ++ B.name) := by
      simpa [getRegistryKey] using Ne.symm hkeys
    refine roundtrip_core _ A B cfg hnd hrevnd ?_ ?_ ?_ so fs n k st st1 st2 fwd back o1 o2
      hfwd hback dk p hmem
    · exact hcc
    · unfold findEntryBy
      rw [getAssoc_setAssoc_ne _ _ _ _ hkeys2, getAssoc_setAssoc_self]
    · unfold findEntryBy
      rw [getAssoc_setAssoc_self]

/-- Destination class for the C7 witness, with a default-constructed field
`val`. -/
def exC7B : ClassInfo := .mk 4 "B2" [("val", .str "")] [] [] [] []

/-- Forward configuration built only from `mapFrom`. -/
def exC7cfg : List (String × FieldFn) := [("val", mapFrom "name")]

/-- The mapper produced by registering the forward map and deriving its
reverse map. -/
def exC7m2 : MapperCfg :=
  ⟨[{ source := exClassA, destination := exC7B, config := some exC7cfg, options := {} },
    { source := exC7B, destination := exClassA, config := some (reverseConfigOf exC7cfg),
      options := {} }],
   [("A->B2",
     { source := exClassA, destination := exC7B, config := some exC7cfg, options := {} }),
    ("B2->A",
     { source := exC7B, destination := exClassA, config := some (reverseConfigOf exC7cfg),
       options := {} })],
   {}, {}⟩

/-- Witness for C7: the field copied forward from `name` into `val` is
reconstructed exactly by the derived reverse map. -/
theorem C7_reverse_map_roundtrip_witness :
    ("val", mapFrom "name") ∈ exC7cfg ∧
    readField (Value.obj 1 1 "A" [("name", Value.str "Ann")]) "name" =
      readField (Value.obj 20 1 "A" [("name", Value.str "Ann")]) "name" :=
  ⟨List.mem_singleton.mpr rfl,
    (C7_reverse_map_roundtrip ⟨[], [], {}, {}⟩ exClassA exC7B exC7cfg exC7m2
        rfl rfl (by decide) (by decide) (by decide) (by rfl)).2
      20 [("name", Value.str "Ann")] 0 0 exSt ⟨1, []⟩ ⟨2, []⟩
      (.obj 0 4 "B2" [("val", Value.str "Ann")]) (.obj 1 1 "A" [("name", Value.str "Ann")])
      none none (by rfl) (by rfl) "val" "name" (List.mem_singleton.mpr rfl)⟩

/-- The state-invariant nested-map result used in the C4 witness. -/
def exPureNested : Value → ClassInfo → Except Err Value := fun _ _ => .ok (.str "NESTED")

/-- Witness for the amended C4: on the doubly annotated field `x` the
source-path branch fires and produces the path value. -/
theorem C4_amended_annotation_priority_order_witness :
    getAssoc exClassD.pathMeta "x" = some "p" ∧
    getAssoc [("x", Value.str "PATH")] "x" = some (.str "PATH") :=
  ⟨rfl,
    (C4_amended_annotation_priority_order exClassD none exRecurseNested exPureNested
        (fun _ _ _ => rfl) exSrcC4 "x" (by decide) (by decide) [] exSt
        [("x", Value.str "PATH")] exSt rfl rfl (by rfl)).1
      "p" (.str "PATH") rfl rfl⟩

end AutoMapper
